import Mathlib

/-!
Shallow embedding of `alignment.py` (CombAlign): a multiple-sequence-alignment
merger.  Python strings are modelled as `List Char`, dictionaries as structures
with `Option` fields, Python exceptions (`IndexError` on out-of-range indexing)
as `none` results, and in-place mutation as functional state passing.
-/

namespace CombAlign

/-- One element of `self.multiAlignment`: Python dict `pairwiseData` with keys
`refChar` (a string, initially `""`), `correspondenceList`, `matchList`
(lists of 1-character strings, modelled as `Char`), `gapList` (list of strings). -/
structure PairwiseData where
  refChar : List Char
  correspondenceList : List Char
  matchList : List Char
  gapList : List (List Char)
deriving DecidableEq, Repr

/-- Python dict `stringPair` with keys `correspondence` and `match`. -/
structure StringPair where
  correspondence : List Char
  matchString : List Char
deriving DecidableEq, Repr

/-- The mutable fields of class `Alignment` that the alignment engine touches
(`molecule`, `structure`, `method`, `pair_i` are never read by it). -/
structure Alignment where
  reference : List Char
  refHeader : List Char
  refSequence : List Char
  alignmentCount : Nat
  multiAlignment : List PairwiseData
  matchNameList : List (List Char)
  loopStrings : List (List Char)
  refDisplayString : List Char
  displayStrings : List StringPair
deriving DecidableEq, Repr

/-- The `self.pairwiseData` template: all fields empty. -/
def emptyPairwiseData : PairwiseData := ⟨[], [], [], []⟩

/-- The `self.stringPair` template: both fields empty strings. -/
def emptyStringPair : StringPair := ⟨[], []⟩

/-- The state produced by `Alignment.__init__`. -/
def initAlignment : Alignment :=
  { reference := "unknown".toList
    refHeader := ">undefined".toList
    refSequence := "empty".toList
    alignmentCount := 0
    multiAlignment := []
    matchNameList := []
    loopStrings := []
    refDisplayString := []
    displayStrings := [] }

/-- Input to `EnterReference`: a dict with keys `reference`, `header`, `sequence`
(each possibly absent). -/
structure RefSeqRecord where
  reference : Option (List Char)
  header : Option (List Char)
  sequence : Option (List Char)
deriving DecidableEq, Repr

/-- Input to `AddAlignment`: a dict with keys `matchName`, `referenceLine`,
`correspondenceLine`, `matchLine` (each possibly absent). -/
structure PairwiseRecord where
  matchName : Option (List Char)
  referenceLine : Option (List Char)
  correspondenceLine : Option (List Char)
  matchLine : Option (List Char)
deriving DecidableEq, Repr

/-- Terminator padding, `if s[-1] != '*': s += '*'`.  Indexing `s[-1]` raises
`IndexError` on the empty string, modelled as `none`. -/
def pad (s : List Char) : Option (List Char) :=
  match s.getLast? with
  | none => none
  | some c => some (if c = '*' then s else s ++ ['*'])

/-- Replace the `n`-th element of a list by `f` applied to it (in-place dict
mutation `l[n][key] = ...`); indices past the end leave the list unchanged
(the caller always checks the bound first). -/
def modN (f : α → α) : Nat → List α → List α
  | _, [] => []
  | 0, x :: xs => f x :: xs
  | n + 1, x :: xs => x :: modN f n xs

/-- Python index `ref_i - 1` into a list of length `len`: `-1` wraps to the
last element (the list is nonempty whenever this is used). -/
def wrapIdx (len r : Nat) : Nat := if r = 0 then len - 1 else r - 1

/-- Python read `l[i-1]` for a cursor `i : Nat`: for `i = 0` this is `l[-1]`,
the last element; an out-of-range index raises (`none`). -/
def prevGet (l : List α) (i : Nat) : Option α :=
  if i = 0 then l.getLast? else l.get? (i - 1)

/-- One column of the three padded alignment lines:
`reference[i]`, `correspondence[i]`, `match[i]`. -/
structure Col where
  r : Char
  c : Char
  m : Char
deriving DecidableEq, Repr

/-- Zip the three (equal-length) padded lines into their columns. -/
def zip3 : List Char → List Char → List Char → List Col
  | a :: as, b :: bs, c :: cs => ⟨a, b, c⟩ :: zip3 as bs cs
  | _, _, _ => []

/-- Lines 159–162 of `alignment.py`, at the current ungapped cursor `r`:
write `refChar`, append the match and correspondence characters. -/
def pdResidue (c mc cc : Char) (pd : PairwiseData) : PairwiseData :=
  { pd with refChar := [c],
            matchList := pd.matchList ++ [mc],
            correspondenceList := pd.correspondenceList ++ [cc] }

/-- Line 162: `multiAlignment[ref_i-1]["gapList"].append(gapString)`. -/
def pdAppendGap (g : List Char) (pd : PairwiseData) : PairwiseData :=
  { pd with gapList := pd.gapList ++ [g] }

/-- The `for i in xrange(0, matchLen)` walk of `AddAlignment` (lines 154–164).
State: remaining columns, ungapped cursor `ref_i`, accumulated `gapString`,
and the `multiAlignment` list.  Reference residues are taken from
`refSequence`; `refSequence[ref_i]` or `multiAlignment[ref_i]` out of range
raises (`none` result, list as mutated so far). -/
def walk (refSeq : List Char) :
    List Col → Nat → List Char → List PairwiseData → Option Unit × List PairwiseData
  | [], _, _, multi => (some (), multi)
  | col :: rest, r, gap, multi =>
    if col.r = '-' then
      walk refSeq rest r (gap ++ [col.m]) multi
    else
      match refSeq.get? r with
      | none => (none, multi)
      | some c =>
        if r < multi.length then
          walk refSeq rest (r + 1) []
            (modN (pdAppendGap gap) (wrapIdx multi.length r)
              (modN (pdResidue c col.m col.c) r multi))
        else (none, multi)

/-- Method `Alignment.EnterReference` (lines 81–108).  Returns the Python result
(`True`/`False`, or `none` for an uncaught `IndexError` on an empty
sequence) together with the state, mutated exactly as far as the source
mutates it before returning. -/
def EnterReference (a : Alignment) (r : Option RefSeqRecord) : Option Bool × Alignment :=
  match r with
  | none => (some false, a)
  | some rec =>
    match rec.reference with
    | none => (some false, a)
    | some ref =>
      match rec.header with
      | none => (some false, { a with reference := ref })
      | some h =>
        match rec.sequence with
        | none => (some false, { a with reference := ref, refHeader := h })
        | some s =>
          match s.getLast? with
          | none => (none, { a with reference := ref, refHeader := h, refSequence := s })
          | some c =>
            if c = '*' then
              (some true,
               { a with
                   reference := ref
                   refHeader := h
                   refSequence := s
                   multiAlignment :=
                     a.multiAlignment ++ List.replicate s.length emptyPairwiseData })
            else
              (some true,
               { a with
                   reference := ref
                   refHeader := h
                   refSequence := s ++ ['*']
                   multiAlignment :=
                     a.multiAlignment ++ List.replicate (s ++ ['*']).length emptyPairwiseData })

/-- Method `Alignment.AddAlignment` (lines 110–174).  Result `some 0` is success,
`some 1` / `some 2` / `some 3` the source's error codes, `none` an uncaught
`IndexError`; the returned state carries whatever mutations happened before
the return or the exception. -/
def AddAlignment (a : Alignment) (rec : Option PairwiseRecord) : Option Nat × Alignment :=
  match rec with
  | none => (some 1, a)
  | some r =>
    match r.matchName with
    | none => (some 2, a)
    | some mn =>
      match r.referenceLine with
      | none => (some 2, a)
      | some rl0 =>
        match pad rl0 with
        | none => (none, a)
        | some rl =>
          match r.correspondenceLine with
          | none => (some 2, a)
          | some cl0 =>
            match pad cl0 with
            | none => (none, a)
            | some cl =>
              match r.matchLine with
              | none => (some 2, a)
              | some ml0 =>
                match pad ml0 with
                | none => (none, a)
                | some ml =>
                  if rl.length = cl.length ∧ rl.length = ml.length ∧ 0 < ml.length then
                    match walk a.refSequence (zip3 rl cl ml) 0 [] a.multiAlignment with
                    | (none, multi') =>
                      (none, { a with matchNameList := a.matchNameList ++ [mn],
                                      multiAlignment := multi' })
                    | (some _, multi') =>
                      (some 0,
                       { a with
                           matchNameList := a.matchNameList ++ [mn]
                           multiAlignment := multi'
                           loopStrings := a.loopStrings ++ [[]]
                           displayStrings := a.displayStrings ++ [emptyStringPair]
                           alignmentCount := a.alignmentCount + 1 })
                  else (some 3, a)

/-- Body of `Alignment.IsLoop`: `for j in xrange(0, count): if loopStrings[j]: ...`;
indexing past the end of `loopStrings` raises. -/
def isLoopAux : Nat → List (List Char) → Option Bool
  | 0, _ => some false
  | _ + 1, [] => none
  | n + 1, l :: ls => (isLoopAux n ls).map (fun b => b || !l.isEmpty)

/-- Method `Alignment.IsLoop` (lines 176–181). -/
def isLoop (a : Alignment) : Option Bool := isLoopAux a.alignmentCount a.loopStrings

/-- Line 188–189: append `multiAlignment[i-1].gapList[j]` to `loopStrings[j]`
for `j < count` (first `count` entries of both lists walked in parallel). -/
def feedAux : Nat → List (List Char) → List (List Char) → Option (List (List Char))
  | 0, ls, _ => some ls
  | _ + 1, [], _ => none
  | _ + 1, _ :: _, [] => none
  | n + 1, l :: ls, g :: gs => (feedAux n ls gs).map (fun res => (l ++ g) :: res)

/-- The `for j in xrange(0, alignmentCount)` loop of lines 188–189; when the
count is zero `multiAlignment[i-1]` is never read. -/
def feed (a : Alignment) (i : Nat) : Option Alignment :=
  if a.alignmentCount = 0 then some a
  else
    match prevGet a.multiAlignment i with
    | none => none
    | some pd =>
      match feedAux a.alignmentCount a.loopStrings pd.gapList with
      | none => none
      | some ls => some { a with loopStrings := ls }

/-- Lines 192–199: one column of the drain loop, for `j < count`: pop one
character from a nonempty `loopStrings[j]` into the match display, or put a
gap character, and always a blank into the correspondence display. -/
def drainCols : Nat → List (List Char) → List StringPair →
    Option (List (List Char) × List StringPair)
  | 0, ls, ds => some (ls, ds)
  | _ + 1, [], _ => none
  | _ + 1, _ :: _, [] => none
  | n + 1, l :: ls, d :: ds =>
    let upd : List Char × StringPair :=
      match l with
      | [] => ([], { d with matchString := d.matchString ++ ['-'],
                            correspondence := d.correspondence ++ [' '] })
      | c :: t => (t, { d with matchString := d.matchString ++ [c],
                               correspondence := d.correspondence ++ [' '] })
    (drainCols n ls ds).map (fun res => (upd.1 :: res.1, upd.2 :: res.2))

/-- One iteration of the `while self.IsLoop()` body (lines 191–199). -/
def drainOnce (a : Alignment) : Option Alignment :=
  match drainCols a.alignmentCount a.loopStrings a.displayStrings with
  | none => none
  | some (ls, ds) =>
    some { a with refDisplayString := a.refDisplayString ++ ['-'],
                  loopStrings := ls, displayStrings := ds }

/-- Total length of all pending loop strings; each iteration of the drain loop
strictly decreases it, so `sumLen + 1` units of fuel always suffice. -/
def sumLen (ls : List (List Char)) : Nat := (ls.map List.length).sum

/-- The `while self.IsLoop()` loop (lines 190–199), with explicit fuel:
the loop in the source always terminates because every iteration removes one
character from each nonempty pending string (see `drainFuel_fuel_irrelevant`). -/
def drainFuel : Nat → Alignment → Option Alignment
  | 0, _ => none
  | fuel + 1, a =>
    match isLoop a with
    | none => none
    | some false => some a
    | some true =>
      match drainOnce a with
      | none => none
      | some a' => drainFuel fuel a'

/-- Lines 200–203: the residue column at position `i`:
`refDisplayString += multiAlignment[i].refChar` and, for `j < count`, append
`matchList[j]` and `correspondenceList[j]` to display pair `j`. -/
def residueAux : Nat → List StringPair → List Char → List Char → Option (List StringPair)
  | 0, ds, _, _ => some ds
  | n + 1, d :: ds, m :: ms, c :: cs =>
    (residueAux n ds ms cs).map
      (fun res => { d with matchString := d.matchString ++ [m],
                           correspondence := d.correspondence ++ [c] } :: res)
  | _ + 1, _, _, _ => none

/-- Lines 200–203 as a state transformer; `multiAlignment[i]` out of range
raises. -/
def residue (a : Alignment) (i : Nat) : Option Alignment :=
  match a.multiAlignment.get? i with
  | none => none
  | some pd =>
    match residueAux a.alignmentCount a.displayStrings pd.matchList pd.correspondenceList with
    | none => none
    | some ds =>
      some { a with refDisplayString := a.refDisplayString ++ pd.refChar,
                    displayStrings := ds }

/-- One iteration of the `for i in xrange(0, len(refSequence))` loop of
`CreateAlignmentStrings` (lines 187–203). -/
def step (a : Alignment) (i : Nat) : Option Alignment :=
  match feed a i with
  | none => none
  | some a1 =>
    match drainFuel (sumLen a1.loopStrings + 1) a1 with
    | none => none
    | some a2 => residue a2 i

/-- Iterate `step` over positions `i, i+1, …, i+n-1`. -/
def synthFrom : Alignment → Nat → Nat → Option Alignment
  | a, _, 0 => some a
  | a, i, n + 1 =>
    match step a i with
    | none => none
    | some a' => synthFrom a' (i + 1) n

/-- Method `Alignment.CreateAlignmentStrings` (lines 183–203). -/
def CreateAlignmentStrings (a : Alignment) : Option Alignment :=
  synthFrom a 0 a.refSequence.length

/-- Lines 256–259 of `PrintDisplayStrings2file`: Python-2 integer division. -/
def segmentCountOf (refLen width : Nat) : Nat :=
  if refLen % width = 0 then refLen / width else refLen / width + 1

/-- Python slice `s[a:b]` for `0 ≤ a ≤ b` (clamped at the ends). -/
def pySlice (s : List Char) (a b : Nat) : List Char := (s.drop a).take (b - a)

/-- Lines 270–292: the chunks of one display string: `s[i*width:(i+1)*width]`
for every non-final `i`, and `s[i*width:]` for the final segment. -/
def segmentsOf (s : List Char) (segCount width : Nat) : List (List Char) :=
  (List.range segCount).map
    (fun i => if i = segCount - 1 then s.drop (i * width) else pySlice s (i * width) ((i + 1) * width))

/-- Run a sequence of `AddAlignment` calls, requiring each to return success
(code 0): the setting of every claim about "successful addAlignment calls". -/
def runAddsOk : Alignment → List PairwiseRecord → Option Alignment
  | a, [] => some a
  | a, r :: rs =>
    match AddAlignment a (some r) with
    | (some 0, a') => runAddsOk a' rs
    | _ => none

/-- Run a sequence of `AddAlignment` calls keeping the state whatever the
results are (covers rejected calls and states left behind by an exception). -/
def runAddsAny : Alignment → List (Option PairwiseRecord) → Alignment
  | a, [] => a
  | a, r :: rs => runAddsAny (AddAlignment a r).2 rs

/-- Store invariant: every position's `refChar` is still the initial empty
string (and then its `matchList` is also untouched), or it is exactly the
one-character string holding that position's residue of the stored reference
sequence. -/
def storeInvM (refSeq : List Char) (multi : List PairwiseData) : Prop :=
  ∀ i pd, multi.get? i = some pd →
    (pd.refChar = [] ∧ pd.matchList = []) ∨
    ∃ c, refSeq.get? i = some c ∧ pd.refChar = [c]

/-- Number of non-gap columns of a column list (characters of the padded
reference line that are not the gap marker). -/
def ngc (cols : List Col) : Nat := cols.countP (fun col => col.r != '-')

/-- How many entries a successful walk starting at cursor `r` over `m` non-gap
columns appends to position `p`'s `matchList` and `correspondenceList`. -/
def mInc (r m p : Nat) : Nat := if r ≤ p ∧ p < r + m then 1 else 0

/-- How many entries such a walk appends to position `p`'s `gapList` in a store
of length `len`: one for each flush at cursor `r'` with `wrapIdx len r' = p`. -/
def gInc (r m len p : Nat) : Nat :=
  (if r = 0 ∧ 1 ≤ m ∧ p = len - 1 then 1 else 0) +
  (if r ≤ p + 1 ∧ p + 1 < r + m then 1 else 0)

/-- Number of nonempty strings among the first `n` pending loop strings. -/
def countNE (n : Nat) (ls : List (List Char)) : Nat :=
  ((ls.take n).filter (fun l => !l.isEmpty)).length

/-- Parallel-list integrity at level `n`: every position record holds exactly
`n` match characters, `n` correspondence symbols and `n` insertion strings. -/
def listLensAre (n : Nat) (multi : List PairwiseData) : Prop :=
  ∀ pd ∈ multi, pd.matchList.length = n ∧ pd.correspondenceList.length = n ∧
    pd.gapList.length = n

/-- A pairwise record whose terminator-padded reference line has exactly `L`
non-gap characters, i.e. covers the whole stored reference. -/
def coversRef (L : Nat) (rec : PairwiseRecord) : Prop :=
  ∃ rl0 rl, rec.referenceLine = some rl0 ∧ pad rl0 = some rl ∧
    (rl.countP (fun c => c != '-')) = L

/-- Display-length equality: every ingested match's two display strings are as
long as the reference display string. -/
def dispOk (a : Alignment) : Prop :=
  ∀ j sp, j < a.alignmentCount → a.displayStrings.get? j = some sp →
    sp.matchString.length = a.refDisplayString.length ∧
    sp.correspondence.length = a.refDisplayString.length

/-- Concatenation of the `refChar` strings of positions `i, …, i+n-1`. -/
def refCharsFrom (multi : List PairwiseData) (i n : Nat) : List Char :=
  (((multi.drop i).take n).map (fun pd => pd.refChar)).flatten

/-- Concrete reference record used by the witnesses: sequence `"AB"`,
padded to `"AB*"`. -/
def refRecW : RefSeqRecord := ⟨some "R".toList, some ">H".toList, some "AB".toList⟩

/-- The state right after entering `refRecW` into a fresh `Alignment`. -/
def aRW : Alignment := (EnterReference initAlignment (some refRecW)).2

/-- Witness alignment 1: inserts `"X"` after residue `'A'`. -/
def rec1W : PairwiseRecord :=
  ⟨some "m1".toList, some "A-B*".toList, some ": :*".toList, some "AXB*".toList⟩

/-- Witness alignment 2: inserts `"YZ"` after residue `'A'`. -/
def rec2W : PairwiseRecord :=
  ⟨some "m2".toList, some "A--B*".toList, some ":  :*".toList, some "AYZB*".toList⟩

/-- A record whose padded reference line `"A*"` has fewer non-gap characters
than the stored reference `"AB*"`, yet is accepted. -/
def recShortW : PairwiseRecord :=
  ⟨some "ms".toList, some "A*".toList, some ":*".toList, some "C*".toList⟩

/-- A record whose reference line uses `'.'` in a column. -/
def recDotW : PairwiseRecord :=
  ⟨some "md".toList, some ".B*".toList, some "::*".toList, some "XB*".toList⟩

/-- A record whose reference line is the empty string. -/
def recEmptyW : PairwiseRecord :=
  ⟨some "me".toList, some ([] : List Char), some ":*".toList, some "A*".toList⟩

/-- A record with non-empty lines of unequal padded lengths. -/
def recUneqW : PairwiseRecord :=
  ⟨some "mu".toList, some "AB*".toList, some ":*".toList, some "AB*".toList⟩

/-- A record with a missing `referenceLine` field. -/
def recMissW : PairwiseRecord :=
  ⟨some "mm".toList, none, some ":*".toList, some "A*".toList⟩

/-- A record with a gap block before the first reference residue: its match
characters `"X"` precede the first residue of `"AB*"`. -/
def recLeadW : PairwiseRecord :=
  ⟨some "ml".toList, some "-AB*".toList, some " ::*".toList, some "XAB*".toList⟩

/-- State after the single successful ingestion of `rec1W` into `aRW`. -/
def aOk1 : Alignment := (runAddsOk aRW [rec1W]).getD initAlignment

/-- Synthesis result for `aOk1`. -/
def bOk1 : Alignment := (CreateAlignmentStrings aOk1).getD initAlignment

/-- State after successfully ingesting `rec1W` and then `rec2W` into `aRW`. -/
def aOk2 : Alignment := (runAddsOk aRW [rec1W, rec2W]).getD initAlignment

/-- Synthesis result for `aOk2`. -/
def bOk2 : Alignment := (CreateAlignmentStrings aOk2).getD initAlignment

/-- State after successfully ingesting `recLeadW` into `aRW`. -/
def aLeadW : Alignment := (runAddsOk aRW [recLeadW]).getD initAlignment

/-- Synthesis result for `aLeadW`. -/
def bLeadW : Alignment := (CreateAlignmentStrings aLeadW).getD initAlignment

/-- Synthesis result for `aRW` itself, i.e. with zero ingested alignments. -/
def bZeroW : Alignment := (CreateAlignmentStrings aRW).getD initAlignment

/-- The walk induced by `recLeadW`'s padded lines over `aRW`'s fresh store. -/
def leadWalk : Option Unit × List PairwiseData :=
  walk "AB*".toList (zip3 "-AB*".toList " ::*".toList "XAB*".toList) 0 []
    (List.replicate 3 emptyPairwiseData)

/-- The last position record after `leadWalk`. -/
def leadPd : PairwiseData := (leadWalk.2.get? 2).getD emptyPairwiseData

/-- The walk induced by `recDotW`'s padded lines over `aRW`'s fresh store. -/
def dotWalk : Option Unit × List PairwiseData :=
  walk "AB*".toList (zip3 ".B*".toList "::*".toList "XB*".toList) 0 []
    (List.replicate 3 emptyPairwiseData)

/-- The first position record after `dotWalk`. -/
def dotPd : PairwiseData := (dotWalk.2.get? 0).getD emptyPairwiseData

/-! ### List-surgery helpers -/

theorem modN_length (f : α → α) (n : Nat) (l : List α) :
    (modN f n l).length = l.length := by
  induction l generalizing n with
  | nil => cases n <;> rfl
  | cons x xs ih =>
    cases n with
    | zero => rfl
    | succ n => simp [modN, ih]

theorem get?_modN (f : α → α) (n : Nat) (l : List α) (m : Nat) :
    (modN f n l).get? m = if m = n then (l.get? m).map f else l.get? m := by
  induction l generalizing n m with
  | nil => simp [modN]
  | cons x xs ih =>
    cases n with
    | zero =>
      cases m with
      | zero => simp [modN]
      | succ m => simp [modN]
    | succ n =>
      cases m with
      | zero => simp [modN]
      | succ m => simpa [modN] using ih n m

/-! ### Walk lemmas -/

theorem walk_sndLength (refSeq : List Char) (cols : List Col) (r : Nat) (gap : List Char)
    (multi : List PairwiseData) :
    (walk refSeq cols r gap multi).2.length = multi.length := by
  induction cols generalizing r gap multi with
  | nil => rfl
  | cons col rest ih =>
    simp only [walk]
    split
    · exact ih ..
    · split
      · rfl
      · split
        · rw [ih]; simp [modN_length]
        · rfl

theorem storeInvM_modN_residue (refSeq : List Char) (multi : List PairwiseData)
    (r : Nat) (c mc cc : Char) (hc : refSeq.get? r = some c)
    (h : storeInvM refSeq multi) :
    storeInvM refSeq (modN (pdResidue c mc cc) r multi) := by
  intro i pd hi
  rw [get?_modN] at hi
  by_cases e : i = r
  · subst e
    rw [if_pos rfl] at hi
    cases hm : multi.get? i with
    | none => rw [hm] at hi; exact absurd hi (by simp)
    | some pd0 =>
      rw [hm, Option.map_some'] at hi
      injection hi with hi
      subst hi
      right
      exact ⟨c, hc, rfl⟩
  · rw [if_neg e] at hi
    exact h i pd hi

theorem storeInvM_modN_gap (refSeq : List Char) (multi : List PairwiseData)
    (k : Nat) (g : List Char) (h : storeInvM refSeq multi) :
    storeInvM refSeq (modN (pdAppendGap g) k multi) := by
  intro i pd hi
  rw [get?_modN] at hi
  by_cases e : i = k
  · subst e
    rw [if_pos rfl] at hi
    cases hm : multi.get? i with
    | none => rw [hm] at hi; exact absurd hi (by simp)
    | some pd0 =>
      rw [hm, Option.map_some'] at hi
      injection hi with hi
      subst hi
      rcases h i pd0 hm with ⟨h1, h2⟩ | ⟨c, hc, h3⟩
      · left
        exact ⟨by simp [pdAppendGap, h1], by simp [pdAppendGap, h2]⟩
      · right
        exact ⟨c, hc, by simp [pdAppendGap, h3]⟩
  · rw [if_neg e] at hi
    exact h i pd hi

theorem mInc_step (r m p : Nat) :
    mInc r (m + 1) p = (if p = r then 1 else 0) + mInc (r + 1) m p := by
  unfold mInc
  split_ifs <;> omega

theorem gInc_step (r m len p : Nat) :
    gInc r (m + 1) len p = (if p = wrapIdx len r then 1 else 0) + gInc (r + 1) m len p := by
  unfold gInc wrapIdx
  simp only [Nat.succ_ne_zero, false_and, if_false]
  split_ifs <;> omega

theorem walk_delta (refSeq : List Char) (cols : List Col) :
    ∀ (r : Nat) (gap : List Char) (multi multi' : List PairwiseData),
      walk refSeq cols r gap multi = (some (), multi') →
      ∀ p pd pd', multi.get? p = some pd → multi'.get? p = some pd' →
        pd'.matchList.length = pd.matchList.length + mInc r (ngc cols) p ∧
        pd'.correspondenceList.length = pd.correspondenceList.length + mInc r (ngc cols) p ∧
        pd'.gapList.length = pd.gapList.length + gInc r (ngc cols) multi.length p := by
  induction cols with
  | nil =>
    intro r gap multi multi' hw p pd pd' hp hp'
    simp only [walk] at hw
    injection hw with _ h2
    subst h2
    rw [hp] at hp'
    injection hp' with hpd
    subst hpd
    have hm : ngc ([] : List Col) = 0 := rfl
    rw [hm]
    unfold mInc gInc
    refine ⟨?_, ?_, ?_⟩ <;> split_ifs <;> omega
  | cons col rest ih =>
    intro r gap multi multi' hw p pd pd' hp hp'
    simp only [walk] at hw
    by_cases hcol : col.r = '-'
    · rw [if_pos hcol] at hw
      have hng : ngc (col :: rest) = ngc rest := by
        simp [ngc, List.countP_cons, hcol]
      rw [hng]
      exact ih r (gap ++ [col.m]) multi multi' hw p pd pd' hp hp'
    · rw [if_neg hcol] at hw
      split at hw
      · exact absurd hw (by simp)
      · rename_i c hg
        split at hw
        · rename_i hr
          have hlen2 : (modN (pdAppendGap gap) (wrapIdx multi.length r)
              (modN (pdResidue c col.m col.c) r multi)).length = multi.length := by
            simp [modN_length]
          have hng : ngc (col :: rest) = ngc rest + 1 := by
            simp [ngc, List.countP_cons, hcol]
          rw [hng]
          by_cases e1 : p = r <;> by_cases e2 : p = wrapIdx multi.length r
          · have hp2 : (modN (pdAppendGap gap) (wrapIdx multi.length r)
                (modN (pdResidue c col.m col.c) r multi)).get? p
                = some (pdAppendGap gap (pdResidue c col.m col.c pd)) := by
              rw [get?_modN, if_pos e2, get?_modN, if_pos e1, hp]
              rfl
            obtain ⟨h1, h2, h3⟩ := ih (r + 1) [] _ multi' hw p _ pd' hp2 hp'
            rw [hlen2] at h3
            have t1 : (pdAppendGap gap (pdResidue c col.m col.c pd)).matchList.length
                = pd.matchList.length + 1 := by simp [pdAppendGap, pdResidue]
            have t2 : (pdAppendGap gap (pdResidue c col.m col.c pd)).correspondenceList.length
                = pd.correspondenceList.length + 1 := by simp [pdAppendGap, pdResidue]
            have t3 : (pdAppendGap gap (pdResidue c col.m col.c pd)).gapList.length
                = pd.gapList.length + 1 := by simp [pdAppendGap, pdResidue]
            refine ⟨?_, ?_, ?_⟩
            · rw [h1, t1, mInc_step, if_pos e1]; omega
            · rw [h2, t2, mInc_step, if_pos e1]; omega
            · rw [h3, t3, gInc_step, if_pos e2]; omega
          · have hp2 : (modN (pdAppendGap gap) (wrapIdx multi.length r)
                (modN (pdResidue c col.m col.c) r multi)).get? p
                = some (pdResidue c col.m col.c pd) := by
              rw [get?_modN, if_neg e2, get?_modN, if_pos e1, hp]
              rfl
            obtain ⟨h1, h2, h3⟩ := ih (r + 1) [] _ multi' hw p _ pd' hp2 hp'
            rw [hlen2] at h3
            have t1 : (pdResidue c col.m col.c pd).matchList.length
                = pd.matchList.length + 1 := by simp [pdResidue]
            have t2 : (pdResidue c col.m col.c pd).correspondenceList.length
                = pd.correspondenceList.length + 1 := by simp [pdResidue]
            have t3 : (pdResidue c col.m col.c pd).gapList.length
                = pd.gapList.length := by simp [pdResidue]
            refine ⟨?_, ?_, ?_⟩
            · rw [h1, t1, mInc_step, if_pos e1]; omega
            · rw [h2, t2, mInc_step, if_pos e1]; omega
            · rw [h3, t3, gInc_step, if_neg e2]; omega
          · have hp2 : (modN (pdAppendGap gap) (wrapIdx multi.length r)
                (modN (pdResidue c col.m col.c) r multi)).get? p
                = some (pdAppendGap gap pd) := by
              rw [get?_modN, if_pos e2, get?_modN, if_neg e1, hp]
              rfl
            obtain ⟨h1, h2, h3⟩ := ih (r + 1) [] _ multi' hw p _ pd' hp2 hp'
            rw [hlen2] at h3
            have t1 : (pdAppendGap gap pd).matchList.length
                = pd.matchList.length := by simp [pdAppendGap]
            have t2 : (pdAppendGap gap pd).correspondenceList.length
                = pd.correspondenceList.length := by simp [pdAppendGap]
            have t3 : (pdAppendGap gap pd).gapList.length
                = pd.gapList.length + 1 := by simp [pdAppendGap]
            refine ⟨?_, ?_, ?_⟩
            · rw [h1, t1, mInc_step, if_neg e1]; omega
            · rw [h2, t2, mInc_step, if_neg e1]; omega
            · rw [h3, t3, gInc_step, if_pos e2]; omega
          · have hp2 : (modN (pdAppendGap gap) (wrapIdx multi.length r)
                (modN (pdResidue c col.m col.c) r multi)).get? p = some pd := by
              rw [get?_modN, if_neg e2, get?_modN, if_neg e1]
              exact hp
            obtain ⟨h1, h2, h3⟩ := ih (r + 1) [] _ multi' hw p _ pd' hp2 hp'
            rw [hlen2] at h3
            refine ⟨?_, ?_, ?_⟩
            · rw [h1, mInc_step, if_neg e1]; omega
            · rw [h2, mInc_step, if_neg e1]; omega
            · rw [h3, gInc_step, if_neg e2]; omega
        · exact absurd hw (by simp)

theorem walk_leading_gaps (refSeq : List Char) (gapsBlock : List Col) :
    ∀ (cols : List Col) (r : Nat) (g : List Char) (multi : List PairwiseData),
      (∀ x ∈ gapsBlock, x.r = '-') →
      walk refSeq (gapsBlock ++ cols) r g multi
        = walk refSeq cols r (g ++ gapsBlock.map (fun x => x.m)) multi := by
  induction gapsBlock with
  | nil => intro cols r g multi _; simp
  | cons x xs ih =>
    intro cols r g multi hall
    have hx : x.r = '-' := hall x (by simp)
    simp only [List.cons_append, walk, if_pos hx, List.append_eq]
    rw [ih cols r (g ++ [x.m]) multi (fun y hy => hall y (by simp [hy]))]
    simp

theorem walk_last_gapList (refSeq : List Char) (cols : List Col) :
    ∀ (r : Nat) (g : List Char) (multi : List PairwiseData), 1 ≤ r →
      ((walk refSeq cols r g multi).2.get? (multi.length - 1)).map (fun pd => pd.gapList)
        = (multi.get? (multi.length - 1)).map (fun pd => pd.gapList) := by
  induction cols with
  | nil => intro r g multi _; rfl
  | cons col rest ih =>
    intro r g multi hr
    simp only [walk]
    split
    · exact ih r (g ++ [col.m]) multi hr
    · split
      · rfl
      · rename_i c hg
        split
        · rename_i hlt
          have hlen2 : (modN (pdAppendGap g) (wrapIdx multi.length r)
              (modN (pdResidue c col.m col.c) r multi)).length = multi.length := by
            simp [modN_length]
          have := ih (r + 1) []
            (modN (pdAppendGap g) (wrapIdx multi.length r)
              (modN (pdResidue c col.m col.c) r multi)) (by omega)
          rw [hlen2] at this
          rw [this]
          rw [get?_modN, get?_modN]
          have hwrap : wrapIdx multi.length r = r - 1 := by
            unfold wrapIdx
            rw [if_neg (by omega)]
          have hne : ¬(multi.length - 1 = wrapIdx multi.length r) := by
            rw [hwrap]; omega
          rw [if_neg hne]
          by_cases e : multi.length - 1 = r
          · rw [if_pos e]
            cases hm : multi.get? (multi.length - 1) with
            | none => rfl
            | some pd => simp [pdResidue]
          · rw [if_neg e]
        · rfl

theorem walk_preGap (refSeq : List Char) (gapsBlock : List Col) (col : Col) (rest : List Col)
    (multi multi' : List PairwiseData)
    (hgaps : ∀ x ∈ gapsBlock, x.r = '-') (hcol : col.r ≠ '-')
    (hw : walk refSeq (gapsBlock ++ col :: rest) 0 [] multi = (some (), multi')) :
    ∀ pd pd', multi.get? (multi.length - 1) = some pd →
      multi'.get? (multi.length - 1) = some pd' →
      pd'.gapList = pd.gapList ++ [gapsBlock.map (fun x => x.m)] := by
  intro pd pd' hpd hpd'
  rw [walk_leading_gaps refSeq gapsBlock (col :: rest) 0 [] multi hgaps] at hw
  simp only [walk, if_neg hcol, List.nil_append] at hw
  revert hw
  split
  · intro hw; exact absurd hw (by simp)
  · rename_i c hg
    split
    · rename_i hlt
      intro hw
      have hlen2 : (modN (pdAppendGap (gapsBlock.map (fun x => x.m))) (wrapIdx multi.length 0)
          (modN (pdResidue c col.m col.c) 0 multi)).length = multi.length := by
        simp [modN_length]
      have hstable := walk_last_gapList refSeq rest 1 []
        (modN (pdAppendGap (gapsBlock.map (fun x => x.m))) (wrapIdx multi.length 0)
          (modN (pdResidue c col.m col.c) 0 multi)) (by omega)
      rw [hlen2, hw] at hstable
      have hsnd : ((some (), multi') : Option Unit × List PairwiseData).2 = multi' := rfl
      rw [hsnd] at hstable
      have hwrap : wrapIdx multi.length 0 = multi.length - 1 := by
        unfold wrapIdx
        rw [if_pos rfl]
      rw [get?_modN, hwrap, if_pos rfl, get?_modN] at hstable
      by_cases e : multi.length - 1 = 0
      · rw [if_pos e, hpd, hpd'] at hstable
        simp only [Option.map_some', Option.map_map, Option.some.injEq,
          Function.comp_apply] at hstable
        rw [hstable]
        simp [pdAppendGap, pdResidue]
      · rw [if_neg e, hpd, hpd'] at hstable
        simp only [Option.map_some', Option.map_map, Option.some.injEq,
          Function.comp_apply] at hstable
        rw [hstable]
        simp [pdAppendGap]
    · intro hw; exact absurd hw (by simp)

theorem walk_storeInv (refSeq : List Char) (cols : List Col) (r : Nat) (gap : List Char)
    (multi : List PairwiseData) (h : storeInvM refSeq multi) :
    storeInvM refSeq (walk refSeq cols r gap multi).2 := by
  induction cols generalizing r gap multi with
  | nil => exact h
  | cons col rest ih =>
    simp only [walk]
    split
    · exact ih _ _ _ h
    · split
      · exact h
      · rename_i c hc
        split
        · exact ih _ _ _
            (storeInvM_modN_gap _ _ _ _ (storeInvM_modN_residue _ _ _ _ _ _ hc h))
        · exact h

/-! ### AddAlignment and EnterReference lemmas -/

theorem zip3_ngc : ∀ (a b c : List Char), a.length = b.length → a.length = c.length →
    ngc (zip3 a b c) = a.countP (fun ch => ch != '-') := by
  intro a
  induction a with
  | nil => intro b c _ _; rfl
  | cons x xs ih =>
    intro b c hb hc
    cases b with
    | nil => simp at hb
    | cons y ys =>
      cases c with
      | nil => simp at hc
      | cons z zs =>
        simp only [List.length_cons] at hb hc
        have hih := ih ys zs (by omega) (by omega)
        unfold ngc at hih ⊢
        simp only [zip3, List.countP_cons, hih]

theorem AddAlignment_error_state (a : Alignment) (rec : Option PairwiseRecord)
    (e : Nat) (a' : Alignment)
    (h : AddAlignment a rec = (some e, a')) (he : e ≠ 0) : a' = a := by
  unfold AddAlignment at h
  cases rec with
  | none =>
    injection h with h1 h2
    exact h2.symm
  | some r =>
    repeat' split at h
    all_goals injection h with h1 h2
    all_goals try exact h2.symm
    all_goals
      first
      | exact Option.noConfusion h1
      | (injection h1 with h0; exact absurd h0.symm he)

theorem AddAlignment_snd_shape (a : Alignment) (rec : Option PairwiseRecord) :
    (AddAlignment a rec).2 = a ∨
    ∃ nl cols res multi',
      walk a.refSequence cols 0 [] a.multiAlignment = (res, multi') ∧
      ((AddAlignment a rec).2 = { a with matchNameList := nl, multiAlignment := multi' } ∨
       (AddAlignment a rec).2 =
         { a with
             matchNameList := nl
             multiAlignment := multi'
             loopStrings := a.loopStrings ++ [[]]
             displayStrings := a.displayStrings ++ [emptyStringPair]
             alignmentCount := a.alignmentCount + 1 }) := by
  unfold AddAlignment
  cases rec with
  | none => exact Or.inl rfl
  | some r =>
    repeat' split
    all_goals try exact Or.inl rfl
    · rename_i heq
      exact Or.inr ⟨_, _, _, _, heq, Or.inl rfl⟩
    · rename_i heq
      exact Or.inr ⟨_, _, _, _, heq, Or.inr rfl⟩

theorem AddAlignment_any_facts (a : Alignment) (rec : Option PairwiseRecord) :
    (AddAlignment a rec).2.refSequence = a.refSequence ∧
    (AddAlignment a rec).2.multiAlignment.length = a.multiAlignment.length ∧
    (storeInvM a.refSequence a.multiAlignment →
      storeInvM (AddAlignment a rec).2.refSequence (AddAlignment a rec).2.multiAlignment) := by
  rcases AddAlignment_snd_shape a rec with h | ⟨nl, cols, res, multi', hw, h | h⟩
  · rw [h]
    exact ⟨rfl, rfl, fun hs => hs⟩
  · rw [h]
    refine ⟨rfl, ?_, fun hs => ?_⟩
    · have hl := walk_sndLength a.refSequence cols 0 [] a.multiAlignment
      rw [hw] at hl
      exact hl
    · have hi := walk_storeInv a.refSequence cols 0 [] a.multiAlignment hs
      rw [hw] at hi
      exact hi
  · rw [h]
    refine ⟨rfl, ?_, fun hs => ?_⟩
    · have hl := walk_sndLength a.refSequence cols 0 [] a.multiAlignment
      rw [hw] at hl
      exact hl
    · have hi := walk_storeInv a.refSequence cols 0 [] a.multiAlignment hs
      rw [hw] at hi
      exact hi

theorem AddAlignment_success_inv (a : Alignment) (r : PairwiseRecord) (a' : Alignment)
    (h : AddAlignment a (some r) = (some 0, a')) :
    ∃ mn rl0 rl cl0 cl ml0 ml multi',
      r.matchName = some mn ∧
      r.referenceLine = some rl0 ∧ pad rl0 = some rl ∧
      r.correspondenceLine = some cl0 ∧ pad cl0 = some cl ∧
      r.matchLine = some ml0 ∧ pad ml0 = some ml ∧
      rl.length = cl.length ∧ rl.length = ml.length ∧ 0 < ml.length ∧
      walk a.refSequence (zip3 rl cl ml) 0 [] a.multiAlignment = (some (), multi') ∧
      a' = { a with
               matchNameList := a.matchNameList ++ [mn]
               multiAlignment := multi'
               loopStrings := a.loopStrings ++ [[]]
               displayStrings := a.displayStrings ++ [emptyStringPair]
               alignmentCount := a.alignmentCount + 1 } := by
  unfold AddAlignment at h
  split at h
  · rename_i heq2
    exact Option.noConfusion heq2
  · rename_i r2 heq2
    injection heq2 with heq2
    subst heq2
    split at h
    · injection h with h1 h2
      injection h1 with h0
      exact absurd h0 (by decide)
    · rename_i mn hmn
      split at h
      · injection h with h1 h2
        injection h1 with h0
        exact absurd h0 (by decide)
      · rename_i rl0 hrl0
        split at h
        · injection h with h1 h2
          exact Option.noConfusion h1
        · rename_i rl hrl
          split at h
          · injection h with h1 h2
            injection h1 with h0
            exact absurd h0 (by decide)
          · rename_i cl0 hcl0
            split at h
            · injection h with h1 h2
              exact Option.noConfusion h1
            · rename_i cl hcl
              split at h
              · injection h with h1 h2
                injection h1 with h0
                exact absurd h0 (by decide)
              · rename_i ml0 hml0
                split at h
                · injection h with h1 h2
                  exact Option.noConfusion h1
                · rename_i ml hml
                  split at h
                  · rename_i hlen
                    split at h
                    · injection h with h1 h2
                      exact Option.noConfusion h1
                    · rename_i u multi2 hww
                      injection h with h1 h2
                      exact ⟨mn, rl0, rl, cl0, cl, ml0, ml, multi2, hmn, hrl0, hrl,
                        hcl0, hcl, hml0, hml, hlen.1, hlen.2.1, hlen.2.2, hww, h2.symm⟩
                  · rename_i hlen
                    injection h with h1 h2
                    injection h1 with h0
                    exact absurd h0 (by decide)

theorem AddAlignment_success_facts (a : Alignment) (r : PairwiseRecord) (a' : Alignment)
    (h : AddAlignment a (some r) = (some 0, a')) :
    a'.refSequence = a.refSequence ∧
    a'.multiAlignment.length = a.multiAlignment.length ∧
    a'.alignmentCount = a.alignmentCount + 1 ∧
    a'.loopStrings = a.loopStrings ++ [[]] ∧
    a'.displayStrings = a.displayStrings ++ [emptyStringPair] ∧
    a'.refDisplayString = a.refDisplayString ∧
    (storeInvM a.refSequence a.multiAlignment →
      storeInvM a'.refSequence a'.multiAlignment) := by
  obtain ⟨mn, rl0, rl, cl0, cl, ml0, ml, multi', hmn, hrl0, hrl, hcl0, hcl,
    hml0, hml, hl1, hl2, hl3, hw, ha'⟩ := AddAlignment_success_inv a r a' h
  subst ha'
  refine ⟨rfl, ?_, rfl, rfl, rfl, rfl, fun hs => ?_⟩
  · have hl := walk_sndLength a.refSequence (zip3 rl cl ml) 0 [] a.multiAlignment
    rw [hw] at hl
    exact hl
  · have hi := walk_storeInv a.refSequence (zip3 rl cl ml) 0 [] a.multiAlignment hs
    rw [hw] at hi
    exact hi

theorem replicate_storeInv (refSeq : List Char) (n : Nat) :
    storeInvM refSeq (List.replicate n emptyPairwiseData) := by
  intro i pd hi
  left
  have hmem := List.get?_mem hi
  have he := List.eq_of_mem_replicate hmem
  subst he
  exact ⟨rfl, rfl⟩

theorem replicate_lens (n : Nat) : listLensAre 0 (List.replicate n emptyPairwiseData) := by
  intro pd hpd
  have he := List.eq_of_mem_replicate hpd
  subst he
  exact ⟨rfl, rfl, rfl⟩

theorem EnterReference_facts (ref : RefSeqRecord) (a0 : Alignment)
    (h : EnterReference initAlignment (some ref) = (some true, a0)) :
    a0.multiAlignment = List.replicate a0.refSequence.length emptyPairwiseData ∧
    1 ≤ a0.refSequence.length ∧
    a0.alignmentCount = 0 ∧ a0.loopStrings = [] ∧ a0.displayStrings = [] ∧
    a0.refDisplayString = [] := by
  unfold EnterReference at h
  split at h
  · rename_i heq
    exact Option.noConfusion heq
  · rename_i rec2 heq
    injection heq with heq
    subst heq
    split at h
    · injection h with h1 h2
      injection h1 with h0
      exact absurd h0 (by decide)
    · rename_i refname href
      split at h
      · injection h with h1 h2
        injection h1 with h0
        exact absurd h0 (by decide)
      · rename_i hdr hhdr
        split at h
        · injection h with h1 h2
          injection h1 with h0
          exact absurd h0 (by decide)
        · rename_i s hs
          split at h
          · injection h with h1 h2
            exact Option.noConfusion h1
          · rename_i c hc
            split at h
            · injection h with h1 h2
              subst h2
              refine ⟨?_, ?_, rfl, rfl, rfl, rfl⟩
              · simp [initAlignment]
              · have hne : s ≠ [] := by
                  intro he
                  subst he
                  exact Option.noConfusion hc
                simpa [initAlignment] using List.length_pos.mpr hne
            · injection h with h1 h2
              subst h2
              refine ⟨?_, ?_, rfl, rfl, rfl, rfl⟩
              · simp [initAlignment]
              · simp [initAlignment]

theorem runAddsOk_facts (recs : List PairwiseRecord) :
    ∀ (a a' : Alignment), runAddsOk a recs = some a' →
      a'.refSequence = a.refSequence ∧
      a'.multiAlignment.length = a.multiAlignment.length ∧
      a'.alignmentCount = a.alignmentCount + recs.length ∧
      a'.loopStrings = a.loopStrings ++ List.replicate recs.length [] ∧
      a'.displayStrings = a.displayStrings ++ List.replicate recs.length emptyStringPair ∧
      a'.refDisplayString = a.refDisplayString ∧
      (storeInvM a.refSequence a.multiAlignment →
        storeInvM a'.refSequence a'.multiAlignment) := by
  induction recs with
  | nil =>
    intro a a' h
    unfold runAddsOk at h
    injection h with h
    subst h
    exact ⟨rfl, rfl, rfl, by simp, by simp, rfl, fun hs => hs⟩
  | cons r rs ih =>
    intro a a' h
    unfold runAddsOk at h
    split at h
    · rename_i a1 heq
      obtain ⟨f1, f2, f3, f4, f5, f6, f7⟩ := AddAlignment_success_facts a r a1 heq
      obtain ⟨g1, g2, g3, g4, g5, g6, g7⟩ := ih a1 a' h
      refine ⟨g1.trans f1, g2.trans f2, ?_, ?_, ?_, g6.trans f6, fun hs => g7 (f7 hs)⟩
      · rw [g3, f3]
        simp only [List.length_cons]
        omega
      · rw [g4, f4]
        simp [List.replicate_succ, List.append_assoc]
      · rw [g5, f5]
        simp [List.replicate_succ, List.append_assoc]
    · exact Option.noConfusion h

theorem runAddsAny_facts (recs : List (Option PairwiseRecord)) :
    ∀ a : Alignment,
      (runAddsAny a recs).refSequence = a.refSequence ∧
      (runAddsAny a recs).multiAlignment.length = a.multiAlignment.length ∧
      (storeInvM a.refSequence a.multiAlignment →
        storeInvM (runAddsAny a recs).refSequence (runAddsAny a recs).multiAlignment) := by
  induction recs with
  | nil => intro a; exact ⟨rfl, rfl, fun hs => hs⟩
  | cons r rs ih =>
    intro a
    obtain ⟨f1, f2, f3⟩ := AddAlignment_any_facts a r
    obtain ⟨g1, g2, g3⟩ := ih (AddAlignment a r).2
    unfold runAddsAny
    exact ⟨g1.trans f1, g2.trans f2, fun hs => g3 (f3 hs)⟩

theorem AddAlignment_success_lens (a : Alignment) (r : PairwiseRecord) (a' : Alignment)
    (n : Nat) (h : AddAlignment a (some r) = (some 0, a'))
    (hlen : a.multiAlignment.length = a.refSequence.length)
    (hcov : coversRef a.refSequence.length r)
    (hl : listLensAre n a.multiAlignment) :
    listLensAre (n + 1) a'.multiAlignment := by
  obtain ⟨mn, rl0, rl, cl0, cl, ml0, ml, multi', hmn, hrl0, hrl, hcl0, hcl, hml0, hml,
    he1, he2, he3, hw, ha'⟩ := AddAlignment_success_inv a r a' h
  obtain ⟨rl0b, rlb, hrl0b, hrlb, hcount⟩ := hcov
  rw [hrl0] at hrl0b
  injection hrl0b with hrl0b
  subst hrl0b
  rw [hrl] at hrlb
  injection hrlb with hrlb
  subst hrlb
  have hml2 : multi'.length = a.multiAlignment.length := by
    have h0 := walk_sndLength a.refSequence (zip3 rl cl ml) 0 [] a.multiAlignment
    rw [hw] at h0
    exact h0
  intro pd' hpd'
  have hmulti : a'.multiAlignment = multi' := by rw [ha']
  rw [hmulti] at hpd'
  obtain ⟨p, hp'⟩ := List.mem_iff_get?.mp hpd'
  have hplt : p < a.multiAlignment.length := by
    have := (List.get?_eq_some.mp hp').1
    omega
  obtain ⟨pd, hpd⟩ : ∃ pd, a.multiAlignment.get? p = some pd :=
    ⟨_, List.get?_eq_get hplt⟩
  obtain ⟨d1, d2, d3⟩ := walk_delta a.refSequence (zip3 rl cl ml) 0 [] a.multiAlignment
    multi' hw p pd pd' hpd hp'
  have hng : ngc (zip3 rl cl ml) = a.refSequence.length := by
    rw [zip3_ngc rl cl ml he1 he2]
    exact hcount
  have hpL : p < a.refSequence.length := by omega
  have hm1 : mInc 0 (ngc (zip3 rl cl ml)) p = 1 := by
    rw [hng]
    unfold mInc
    rw [if_pos ⟨Nat.zero_le p, by omega⟩]
  have hg1 : gInc 0 (ngc (zip3 rl cl ml)) a.multiAlignment.length p = 1 := by
    rw [hng, hlen]
    unfold gInc
    split_ifs <;> omega
  obtain ⟨l1, l2, l3⟩ := hl pd (List.get?_mem hpd)
  rw [hm1] at d1 d2
  rw [hg1] at d3
  exact ⟨by omega, by omega, by omega⟩

theorem runAddsOk_lens (recs : List PairwiseRecord) :
    ∀ (a a' : Alignment) (n : Nat),
      runAddsOk a recs = some a' →
      a.multiAlignment.length = a.refSequence.length →
      (∀ rec ∈ recs, coversRef a.refSequence.length rec) →
      listLensAre n a.multiAlignment →
      listLensAre (n + recs.length) a'.multiAlignment := by
  induction recs with
  | nil =>
    intro a a' n h _ _ hl
    unfold runAddsOk at h
    injection h with h
    subst h
    simpa using hl
  | cons r rs ih =>
    intro a a' n h hlen hcov hl
    unfold runAddsOk at h
    split at h
    · rename_i a1 heq
      obtain ⟨f1, f2, f3, f4, f5, f6, f7⟩ := AddAlignment_success_facts a r a1 heq
      have h1 := AddAlignment_success_lens a r a1 n heq hlen (hcov r (by simp)) hl
      have h2 := ih a1 a' (n + 1) h (by rw [f2, f1]; exact hlen)
        (fun rec hrec => by rw [f1]; exact hcov rec (by simp [hrec])) h1
      have hlc : n + 1 + rs.length = n + (r :: rs).length := by
        simp only [List.length_cons]
        omega
      rw [hlc] at h2
      exact h2
    · exact Option.noConfusion h

/-! ### Synthesis auxiliary lemmas -/

theorem feedAux_spec : ∀ (n : Nat) (ls gs ls' : List (List Char)),
    feedAux n ls gs = some ls' →
    ls'.length = ls.length ∧
    (∀ j, n ≤ j → ls'.get? j = ls.get? j) ∧
    (∀ j, j < n → ∃ l g, ls.get? j = some l ∧ gs.get? j = some g ∧
      ls'.get? j = some (l ++ g)) := by
  intro n
  induction n with
  | zero =>
    intro ls gs ls' h
    injection h with h
    subst h
    exact ⟨rfl, fun j _ => rfl, fun j hj => absurd hj (by omega)⟩
  | succ n ih =>
    intro ls gs ls' h
    cases ls with
    | nil => exact Option.noConfusion h
    | cons l ls2 =>
      cases gs with
      | nil => exact Option.noConfusion h
      | cons g gs2 =>
        simp only [feedAux] at h
        cases hf : feedAux n ls2 gs2 with
        | none => rw [hf] at h; exact Option.noConfusion h
        | some res =>
          rw [hf] at h
          simp only [Option.map_some'] at h
          injection h with h
          subst h
          obtain ⟨e1, e2, e3⟩ := ih ls2 gs2 res hf
          refine ⟨by simp [e1], ?_, ?_⟩
          · intro j hj
            cases j with
            | zero => omega
            | succ j => simpa using e2 j (by omega)
          · intro j hj
            cases j with
            | zero => exact ⟨l, g, rfl, rfl, rfl⟩
            | succ j =>
              obtain ⟨l2, g2, p1, p2, p3⟩ := e3 j (by omega)
              exact ⟨l2, g2, by simpa using p1, by simpa using p2, by simpa using p3⟩

theorem residueAux_spec : ∀ (n : Nat) (ds : List StringPair) (ms cs : List Char)
    (ds' : List StringPair),
    residueAux n ds ms cs = some ds' →
    ds'.length = ds.length ∧
    (∀ j, n ≤ j → ds'.get? j = ds.get? j) ∧
    (∀ j, j < n → ∃ d m c, ds.get? j = some d ∧ ms.get? j = some m ∧
      cs.get? j = some c ∧
      ds'.get? j = some ⟨d.correspondence ++ [c], d.matchString ++ [m]⟩) := by
  intro n
  induction n with
  | zero =>
    intro ds ms cs ds' h
    injection h with h
    subst h
    exact ⟨rfl, fun j _ => rfl, fun j hj => absurd hj (by omega)⟩
  | succ n ih =>
    intro ds ms cs ds' h
    cases ds with
    | nil => exact Option.noConfusion h
    | cons d ds2 =>
      cases ms with
      | nil => exact Option.noConfusion h
      | cons m ms2 =>
        cases cs with
        | nil => exact Option.noConfusion h
        | cons c cs2 =>
          simp only [residueAux] at h
          cases hf : residueAux n ds2 ms2 cs2 with
          | none => rw [hf] at h; exact Option.noConfusion h
          | some res =>
            rw [hf] at h
            simp only [Option.map_some'] at h
            injection h with h
            subst h
            obtain ⟨e1, e2, e3⟩ := ih ds2 ms2 cs2 res hf
            refine ⟨by simp [e1], ?_, ?_⟩
            · intro j hj
              cases j with
              | zero => omega
              | succ j => simpa using e2 j (by omega)
            · intro j hj
              cases j with
              | zero => exact ⟨d, m, c, rfl, rfl, rfl, rfl⟩
              | succ j =>
                obtain ⟨d2, m2, c2, p1, p2, p3, p4⟩ := e3 j (by omega)
                exact ⟨d2, m2, c2, by simpa using p1, by simpa using p2,
                  by simpa using p3, by simpa using p4⟩

theorem drainCols_spec : ∀ (n : Nat) (ls : List (List Char)) (ds : List StringPair)
    (ls' : List (List Char)) (ds' : List StringPair),
    drainCols n ls ds = some (ls', ds') →
    ls'.length = ls.length ∧ ds'.length = ds.length ∧
    (∀ j, n ≤ j → ls'.get? j = ls.get? j ∧ ds'.get? j = ds.get? j) ∧
    (∀ j, j < n → ∃ l d, ls.get? j = some l ∧ ds.get? j = some d ∧
      ((l = [] ∧ ls'.get? j = some [] ∧
        ds'.get? j = some ⟨d.correspondence ++ [' '], d.matchString ++ ['-']⟩) ∨
       (∃ c t, l = c :: t ∧ ls'.get? j = some t ∧
        ds'.get? j = some ⟨d.correspondence ++ [' '], d.matchString ++ [c]⟩))) := by
  intro n
  induction n with
  | zero =>
    intro ls ds ls' ds' h
    injection h with h
    injection h with h1 h2
    subst h1
    subst h2
    exact ⟨rfl, rfl, fun j _ => ⟨rfl, rfl⟩, fun j hj => absurd hj (by omega)⟩
  | succ n ih =>
    intro ls ds ls' ds' h
    cases ls with
    | nil => exact Option.noConfusion h
    | cons l ls2 =>
      cases ds with
      | nil => exact Option.noConfusion h
      | cons d ds2 =>
        simp only [drainCols] at h
        cases hf : drainCols n ls2 ds2 with
        | none => rw [hf] at h; exact Option.noConfusion h
        | some res =>
          rw [hf] at h
          simp only [Option.map_some'] at h
          injection h with h
          obtain ⟨res1, res2⟩ := res
          obtain ⟨e1, e2, e3, e4⟩ := ih ls2 ds2 res1 res2 hf
          cases l with
          | nil =>
            simp only at h
            injection h with h1 h2
            subst h1
            subst h2
            refine ⟨by simp [e1], by simp [e2], ?_, ?_⟩
            · intro j hj
              cases j with
              | zero => omega
              | succ j =>
                obtain ⟨q1, q2⟩ := e3 j (by omega)
                exact ⟨by simpa using q1, by simpa using q2⟩
            · intro j hj
              cases j with
              | zero => exact ⟨[], d, rfl, rfl, Or.inl ⟨rfl, rfl, rfl⟩⟩
              | succ j =>
                obtain ⟨l2, d2, p1, p2, p3⟩ := e4 j (by omega)
                refine ⟨l2, d2, by simpa using p1, by simpa using p2, ?_⟩
                rcases p3 with ⟨q1, q2, q3⟩ | ⟨c2, t2, q1, q2, q3⟩
                · exact Or.inl ⟨q1, by simpa using q2, by simpa using q3⟩
                · exact Or.inr ⟨c2, t2, q1, by simpa using q2, by simpa using q3⟩
          | cons c t =>
            simp only at h
            injection h with h1 h2
            subst h1
            subst h2
            refine ⟨by simp [e1], by simp [e2], ?_, ?_⟩
            · intro j hj
              cases j with
              | zero => omega
              | succ j =>
                obtain ⟨q1, q2⟩ := e3 j (by omega)
                exact ⟨by simpa using q1, by simpa using q2⟩
            · intro j hj
              cases j with
              | zero => exact ⟨c :: t, d, rfl, rfl, Or.inr ⟨c, t, rfl, rfl, rfl⟩⟩
              | succ j =>
                obtain ⟨l2, d2, p1, p2, p3⟩ := e4 j (by omega)
                refine ⟨l2, d2, by simpa using p1, by simpa using p2, ?_⟩
                rcases p3 with ⟨q1, q2, q3⟩ | ⟨c2, t2, q1, q2, q3⟩
                · exact Or.inl ⟨q1, by simpa using q2, by simpa using q3⟩
                · exact Or.inr ⟨c2, t2, q1, by simpa using q2, by simpa using q3⟩

theorem isLoopAux_false : ∀ (n : Nat) (ls : List (List Char)),
    isLoopAux n ls = some false → ∀ j, j < n → ls.get? j = some [] := by
  intro n
  induction n with
  | zero => intro ls _ j hj; omega
  | succ n ih =>
    intro ls h j hj
    cases ls with
    | nil => exact Option.noConfusion h
    | cons l ls2 =>
      simp only [isLoopAux] at h
      cases hf : isLoopAux n ls2 with
      | none => rw [hf] at h; exact Option.noConfusion h
      | some b2 =>
        rw [hf] at h
        simp only [Option.map_some'] at h
        injection h with h
        have hb2 : b2 = false := by
          cases b2
          · rfl
          · simp at h
        have hle : l = [] := by
          cases l
          · rfl
          · subst hb2; simp at h
        subst hb2
        cases j with
        | zero => rw [hle]; rfl
        | succ j => simpa using ih ls2 hf j (by omega)

theorem isLoopAux_length : ∀ (n : Nat) (ls : List (List Char)) (b : Bool),
    isLoopAux n ls = some b → n ≤ ls.length := by
  intro n
  induction n with
  | zero => intro ls b _; omega
  | succ n ih =>
    intro ls b h
    cases ls with
    | nil => exact Option.noConfusion h
    | cons l ls2 =>
      simp only [isLoopAux] at h
      cases hf : isLoopAux n ls2 with
      | none => rw [hf] at h; exact Option.noConfusion h
      | some b2 =>
        have := ih ls2 b2 hf
        simp only [List.length_cons]
        omega

theorem countNE_cons (n : Nat) (l : List Char) (ls : List (List Char)) :
    countNE (n + 1) (l :: ls) = (if l.isEmpty then 0 else 1) + countNE n ls := by
  unfold countNE
  rw [List.take_succ_cons, List.filter_cons]
  cases hl : l.isEmpty with
  | true => simp [hl]
  | false =>
    simp [hl]
    omega

theorem isLoopAux_true_countNE : ∀ (n : Nat) (ls : List (List Char)),
    isLoopAux n ls = some true → 1 ≤ countNE n ls := by
  intro n
  induction n with
  | zero => intro ls h; injection h with h; exact absurd h (by decide)
  | succ n ih =>
    intro ls h
    cases ls with
    | nil => exact Option.noConfusion h
    | cons l ls2 =>
      simp only [isLoopAux] at h
      cases hf : isLoopAux n ls2 with
      | none => rw [hf] at h; exact Option.noConfusion h
      | some b2 =>
        rw [hf] at h
        simp only [Option.map_some'] at h
        injection h with h
        rw [countNE_cons]
        cases b2 with
        | true => have := ih ls2 hf; omega
        | false =>
          cases hl : l.isEmpty with
          | true => rw [hl] at h; simp at h
          | false => simp [hl]

theorem drainCols_sum : ∀ (n : Nat) (ls : List (List Char)) (ds : List StringPair)
    (ls' : List (List Char)) (ds' : List StringPair),
    drainCols n ls ds = some (ls', ds') →
    sumLen ls' + countNE n ls = sumLen ls := by
  intro n
  induction n with
  | zero =>
    intro ls ds ls' ds' h
    injection h with h
    injection h with h1 h2
    subst h1
    simp [countNE]
  | succ n ih =>
    intro ls ds ls' ds' h
    cases ls with
    | nil => exact Option.noConfusion h
    | cons l ls2 =>
      cases ds with
      | nil => exact Option.noConfusion h
      | cons d ds2 =>
        simp only [drainCols] at h
        cases hf : drainCols n ls2 ds2 with
        | none => rw [hf] at h; exact Option.noConfusion h
        | some res =>
          rw [hf] at h
          simp only [Option.map_some'] at h
          injection h with h
          obtain ⟨res1, res2⟩ := res
          have hsum := ih ls2 ds2 res1 res2 hf
          rw [countNE_cons]
          cases l with
          | nil =>
            simp only at h
            injection h with h1 h2
            subst h1
            have e1 : sumLen ([] :: res1) = 0 + sumLen res1 := by simp [sumLen]
            have e2 : sumLen ([] :: ls2) = 0 + sumLen ls2 := by simp [sumLen]
            rw [e1, e2, List.isEmpty_nil, if_pos rfl]
            omega
          | cons c t =>
            simp only at h
            injection h with h1 h2
            subst h1
            have e1 : sumLen (t :: res1) = t.length + sumLen res1 := by simp [sumLen]
            have e2 : sumLen ((c :: t) :: ls2) = (t.length + 1) + sumLen ls2 := by
              simp [sumLen]
            rw [e1, e2, List.isEmpty_cons, if_neg (by decide)]
            omega

theorem drainOnce_inv (a a' : Alignment) (h : drainOnce a = some a') :
    ∃ ls' ds',
      drainCols a.alignmentCount a.loopStrings a.displayStrings = some (ls', ds') ∧
      a' = { a with refDisplayString := a.refDisplayString ++ ['-'],
                    loopStrings := ls', displayStrings := ds' } := by
  unfold drainOnce at h
  split at h
  · exact Option.noConfusion h
  · rename_i ls2 ds2 heq
    injection h with h
    exact ⟨ls2, ds2, heq, h.symm⟩

theorem drainFuel_spec : ∀ (fuel : Nat) (a b : Alignment),
    drainFuel fuel a = some b →
    a.alignmentCount ≤ a.loopStrings.length →
    a.alignmentCount ≤ a.displayStrings.length →
    ∃ K,
      b.refSequence = a.refSequence ∧
      b.multiAlignment = a.multiAlignment ∧
      b.alignmentCount = a.alignmentCount ∧
      b.matchNameList = a.matchNameList ∧
      b.loopStrings.length = a.loopStrings.length ∧
      b.displayStrings.length = a.displayStrings.length ∧
      b.refDisplayString = a.refDisplayString ++ List.replicate K '-' ∧
      (∀ j, a.alignmentCount ≤ j → b.loopStrings.get? j = a.loopStrings.get? j ∧
        b.displayStrings.get? j = a.displayStrings.get? j) ∧
      (∀ j, j < a.alignmentCount → ∃ l d,
        a.loopStrings.get? j = some l ∧ a.displayStrings.get? j = some d ∧
        l.length ≤ K ∧
        b.loopStrings.get? j = some [] ∧
        b.displayStrings.get? j = some ⟨d.correspondence ++ List.replicate K ' ',
          d.matchString ++ l ++ List.replicate (K - l.length) '-'⟩) := by
  intro fuel
  induction fuel with
  | zero => intro a b h _ _; exact Option.noConfusion h
  | succ fuel ih =>
    intro a b h hc1 hc2
    simp only [drainFuel] at h
    cases hl : isLoop a with
    | none => rw [hl] at h; exact Option.noConfusion h
    | some lb =>
      rw [hl] at h
      cases lb with
      | false =>
        injection h with h
        subst h
        refine ⟨0, rfl, rfl, rfl, rfl, rfl, rfl, by simp, fun j _ => ⟨rfl, rfl⟩, ?_⟩
        intro j hj
        have hempty := isLoopAux_false a.alignmentCount a.loopStrings hl j hj
        obtain ⟨d, hd⟩ : ∃ d, a.displayStrings.get? j = some d :=
          ⟨_, List.get?_eq_get (by omega)⟩
        refine ⟨[], d, hempty, hd, by simp, hempty, ?_⟩
        rw [hd]
        simp
      | true =>
        cases ho : drainOnce a with
        | none => rw [ho] at h; exact Option.noConfusion h
        | some a1 =>
          rw [ho] at h
          obtain ⟨ls1, ds1, hdc, ha1⟩ := drainOnce_inv a a1 ho
          obtain ⟨e1, e2, e3, e4⟩ := drainCols_spec a.alignmentCount a.loopStrings
            a.displayStrings ls1 ds1 hdc
          have c1 : a1.loopStrings = ls1 := by rw [ha1]
          have c2 : a1.displayStrings = ds1 := by rw [ha1]
          have c3 : a1.refDisplayString = a.refDisplayString ++ ['-'] := by rw [ha1]
          have c4 : a1.alignmentCount = a.alignmentCount := by rw [ha1]
          have c5 : a1.refSequence = a.refSequence := by rw [ha1]
          have c6 : a1.multiAlignment = a.multiAlignment := by rw [ha1]
          have c7 : a1.matchNameList = a.matchNameList := by rw [ha1]
          obtain ⟨K, g1, g2, g3, g4, g5, g6, g7, g8, g9⟩ := ih a1 b h
            (by rw [c4, c1, e1]; exact hc1) (by rw [c4, c2, e2]; exact hc2)
          rw [c4] at g3 g8 g9
          rw [c1] at g5 g8 g9
          rw [c2] at g6 g8 g9
          rw [c3] at g7
          refine ⟨K + 1, g1.trans c5, g2.trans c6, g3, g4.trans c7, ?_, ?_, ?_, ?_, ?_⟩
          · rw [g5, e1]
          · rw [g6, e2]
          · rw [g7]
            simp [List.replicate_succ]
          · intro j hj
            obtain ⟨q1, q2⟩ := g8 j hj
            obtain ⟨q3, q4⟩ := e3 j hj
            exact ⟨q1.trans q3, q2.trans q4⟩
          · intro j hj
            obtain ⟨l, d, p1, p2, p3⟩ := e4 j hj
            obtain ⟨l2, d2, q1, q2, q3, q4, q5⟩ := g9 j hj
            rcases p3 with ⟨hl0, r1, r2⟩ | ⟨c, t, hl0, r1, r2⟩
            · rw [r1] at q1
              injection q1 with q1
              rw [r2] at q2
              injection q2 with q2
              subst hl0
              refine ⟨[], d, p1, p2, by simp, q4, ?_⟩
              rw [q5, ← q2, ← q1]
              simp [List.replicate_succ]
            · rw [r1] at q1
              injection q1 with q1
              rw [r2] at q2
              injection q2 with q2
              subst hl0
              refine ⟨c :: t, d, p1, p2, ?_, q4, ?_⟩
              · have : l2.length ≤ K := q3
                rw [← q1] at this
                simp only [List.length_cons]
                omega
              · rw [q5, ← q2, ← q1]
                have harith : K - t.length = K + 1 - (c :: t).length := by
                  have : l2.length ≤ K := q3
                  rw [← q1] at this
                  simp only [List.length_cons]
                  omega
                rw [harith]
                simp [List.replicate_succ]

theorem feed_spec (a b : Alignment) (i : Nat) (h : feed a i = some b) :
    b.refSequence = a.refSequence ∧ b.multiAlignment = a.multiAlignment ∧
    b.alignmentCount = a.alignmentCount ∧ b.matchNameList = a.matchNameList ∧
    b.displayStrings = a.displayStrings ∧ b.refDisplayString = a.refDisplayString ∧
    b.loopStrings.length = a.loopStrings.length ∧
    (∀ j, a.alignmentCount ≤ j → b.loopStrings.get? j = a.loopStrings.get? j) ∧
    (1 ≤ a.alignmentCount → ∃ pd, prevGet a.multiAlignment i = some pd ∧
      ∀ j, j < a.alignmentCount → ∃ l g, a.loopStrings.get? j = some l ∧
        pd.gapList.get? j = some g ∧ b.loopStrings.get? j = some (l ++ g)) := by
  unfold feed at h
  split at h
  · rename_i hz
    injection h with h
    subst h
    exact ⟨rfl, rfl, rfl, rfl, rfl, rfl, rfl, fun j _ => rfl,
      fun hc => absurd hz (by omega)⟩
  · rename_i hz
    split at h
    · exact Option.noConfusion h
    · rename_i pd hpd
      split at h
      · exact Option.noConfusion h
      · rename_i ls2 hfa
        injection h with h
        subst h
        obtain ⟨e1, e2, e3⟩ := feedAux_spec a.alignmentCount a.loopStrings pd.gapList ls2 hfa
        exact ⟨rfl, rfl, rfl, rfl, rfl, rfl, e1, fun j hj => e2 j hj,
          fun _ => ⟨pd, hpd, fun j hj => e3 j hj⟩⟩

theorem residue_spec (a b : Alignment) (i : Nat) (h : residue a i = some b) :
    ∃ pd, a.multiAlignment.get? i = some pd ∧
      b.refSequence = a.refSequence ∧ b.multiAlignment = a.multiAlignment ∧
      b.alignmentCount = a.alignmentCount ∧ b.matchNameList = a.matchNameList ∧
      b.loopStrings = a.loopStrings ∧
      b.refDisplayString = a.refDisplayString ++ pd.refChar ∧
      b.displayStrings.length = a.displayStrings.length ∧
      (∀ j, a.alignmentCount ≤ j → b.displayStrings.get? j = a.displayStrings.get? j) ∧
      (∀ j, j < a.alignmentCount → ∃ d m c, a.displayStrings.get? j = some d ∧
        pd.matchList.get? j = some m ∧ pd.correspondenceList.get? j = some c ∧
        b.displayStrings.get? j = some ⟨d.correspondence ++ [c], d.matchString ++ [m]⟩) := by
  unfold residue at h
  split at h
  · exact Option.noConfusion h
  · rename_i pd hpd
    split at h
    · exact Option.noConfusion h
    · rename_i ds2 hra
      injection h with h
      subst h
      obtain ⟨e1, e2, e3⟩ := residueAux_spec a.alignmentCount a.displayStrings
        pd.matchList pd.correspondenceList ds2 hra
      exact ⟨pd, hpd, rfl, rfl, rfl, rfl, rfl, rfl, e1, fun j hj => e2 j hj,
        fun j hj => e3 j hj⟩

theorem step_spec (a b : Alignment) (i : Nat) (h : step a i = some b)
    (hc1 : a.alignmentCount ≤ a.loopStrings.length)
    (hc2 : a.alignmentCount ≤ a.displayStrings.length) :
    ∃ pd K,
      a.multiAlignment.get? i = some pd ∧
      b.refSequence = a.refSequence ∧
      b.multiAlignment = a.multiAlignment ∧
      b.alignmentCount = a.alignmentCount ∧
      b.matchNameList = a.matchNameList ∧
      b.loopStrings.length = a.loopStrings.length ∧
      b.displayStrings.length = a.displayStrings.length ∧
      b.refDisplayString = a.refDisplayString ++ List.replicate K '-' ++ pd.refChar ∧
      (∀ j, a.alignmentCount ≤ j → b.loopStrings.get? j = a.loopStrings.get? j ∧
        b.displayStrings.get? j = a.displayStrings.get? j) ∧
      (∀ j, j < a.alignmentCount → ∃ pdPrev d l g m c,
        prevGet a.multiAlignment i = some pdPrev ∧
        a.displayStrings.get? j = some d ∧
        a.loopStrings.get? j = some l ∧
        pdPrev.gapList.get? j = some g ∧
        pd.matchList.get? j = some m ∧
        pd.correspondenceList.get? j = some c ∧
        (l ++ g).length ≤ K ∧
        b.loopStrings.get? j = some [] ∧
        b.displayStrings.get? j = some
          ⟨d.correspondence ++ List.replicate K ' ' ++ [c],
           d.matchString ++ (l ++ g) ++ List.replicate (K - (l ++ g).length) '-' ++ [m]⟩) := by
  unfold step at h
  split at h
  · exact Option.noConfusion h
  · rename_i a1 hfeed
    split at h
    · exact Option.noConfusion h
    · rename_i a2 hdrain
      obtain ⟨f1, f2, f3, f4, f5, f6, f7, f8, f9⟩ := feed_spec a a1 i hfeed
      obtain ⟨K, g1, g2, g3, g4, g5, g6, g7, g8, g9⟩ := drainFuel_spec _ a1 a2 hdrain
        (by rw [f3, f7]; exact hc1) (by rw [f3, f5]; exact hc2)
      obtain ⟨pd, r0, r1, r2, r3, r4, r5, r6, r7, r8, r9⟩ := residue_spec a2 b i h
      rw [f3] at g3 g8 g9
      rw [f5] at g6 g8 g9
      rw [f6] at g7
      rw [g2, f2] at r0
      rw [g3] at r3 r8 r9
      refine ⟨pd, K, r0, ?_, ?_, ?_, ?_, ?_, ?_, ?_, ?_, ?_⟩
      · rw [r1, g1, f1]
      · rw [r2, g2, f2]
      · rw [r3]
      · rw [r4, g4, f4]
      · rw [r5, g5, f7]
      · rw [r7, g6]
      · rw [r6, g7]
      · intro j hj
        obtain ⟨q1, q2⟩ := g8 j hj
        have q3 := f8 j hj
        have q4 := r8 j hj
        constructor
        · rw [r5, q1, q3]
        · rw [q4, q2]
      · intro j hj
        have hcpos : 1 ≤ a.alignmentCount := by omega
        obtain ⟨pdPrev, hprev, hfj⟩ := f9 hcpos
        obtain ⟨l, g, p1, p2, p3⟩ := hfj j hj
        obtain ⟨l2, d2, q1, q2, q3, q4, q5⟩ := g9 j hj
        rw [p3] at q1
        injection q1 with q1
        obtain ⟨d3, m, c, s1, s2, s3, s4⟩ := r9 j hj
        rw [q5] at s1
        injection s1 with s1
        refine ⟨pdPrev, d2, l, g, m, c, hprev, q2, p1, p2, s2, s3, ?_, ?_, ?_⟩
        · rw [q1]; exact q3
        · rw [r5]; rw [q4]
        · rw [s4, ← s1, ← q1]

theorem synthFrom_const : ∀ (n : Nat) (a b : Alignment) (i : Nat),
    synthFrom a i n = some b →
    a.alignmentCount ≤ a.loopStrings.length →
    a.alignmentCount ≤ a.displayStrings.length →
    b.refSequence = a.refSequence ∧ b.multiAlignment = a.multiAlignment ∧
    b.alignmentCount = a.alignmentCount ∧
    b.loopStrings.length = a.loopStrings.length ∧
    b.displayStrings.length = a.displayStrings.length := by
  intro n
  induction n with
  | zero =>
    intro a b i h _ _
    injection h with h
    subst h
    exact ⟨rfl, rfl, rfl, rfl, rfl⟩
  | succ n ih =>
    intro a b i h hc1 hc2
    simp only [synthFrom] at h
    cases hstep : step a i with
    | none => rw [hstep] at h; exact Option.noConfusion h
    | some a1 =>
      rw [hstep] at h
      obtain ⟨pd, K, s0, s1, s2, s3, s4, s5, s6, s7, s8, s9⟩ :=
        step_spec a a1 i hstep hc1 hc2
      obtain ⟨t1, t2, t3, t4, t5⟩ := ih a1 b (i + 1) h
        (by rw [s3, s5]; exact hc1) (by rw [s3, s6]; exact hc2)
      exact ⟨t1.trans s1, t2.trans s2, t3.trans s3, t4.trans s5, t5.trans s6⟩

theorem synthFrom_dispOk : ∀ (n : Nat) (a b : Alignment) (i : Nat),
    synthFrom a i n = some b →
    a.alignmentCount ≤ a.loopStrings.length →
    a.alignmentCount ≤ a.displayStrings.length →
    storeInvM a.refSequence a.multiAlignment →
    dispOk a → dispOk b := by
  intro n
  induction n with
  | zero =>
    intro a b i h _ _ _ hd
    injection h with h
    subst h
    exact hd
  | succ n ih =>
    intro a b i h hc1 hc2 hs hd
    simp only [synthFrom] at h
    cases hstep : step a i with
    | none => rw [hstep] at h; exact Option.noConfusion h
    | some a1 =>
      rw [hstep] at h
      obtain ⟨pd, K, s0, s1, s2, s3, s4, s5, s6, s7, s8, s9⟩ :=
        step_spec a a1 i hstep hc1 hc2
      refine ih a1 b (i + 1) h (by rw [s3, s5]; exact hc1) (by rw [s3, s6]; exact hc2)
        (by rw [s1, s2]; exact hs) ?_
      intro j sp hj hsp
      rw [s3] at hj
      obtain ⟨pdPrev, d, l, g, m, c, w0, w1, w2, w3, w4, w5, w6, w7, w8⟩ := s9 j hj
      rw [w8] at hsp
      injection hsp with hsp
      subst hsp
      obtain ⟨hd1, hd2⟩ := hd j d hj w1
      have hrc : pd.refChar.length = 1 := by
        have hne : pd.matchList ≠ [] := by
          intro he
          rw [he] at w4
          exact Option.noConfusion w4
        rcases hs i pd s0 with ⟨h1, h2⟩ | ⟨c0, hc0, h2⟩
        · exact absurd h2 hne
        · rw [h2]; rfl
      have w6b : l.length + g.length ≤ K := by simpa using w6
      rw [s7]
      constructor <;> simp <;> omega

theorem synthFrom_refDisp : ∀ (n : Nat) (a b : Alignment) (i : Nat),
    synthFrom a i n = some b →
    a.alignmentCount ≤ a.loopStrings.length →
    a.alignmentCount ≤ a.displayStrings.length →
    ∃ s, b.refDisplayString = a.refDisplayString ++ s ∧
      s.filter (fun c => c != '-')
        = (refCharsFrom a.multiAlignment i n).filter (fun c => c != '-') ∧
      (∀ c ∈ s, c = '-' ∨ ∃ pd ∈ a.multiAlignment, c ∈ pd.refChar) := by
  intro n
  induction n with
  | zero =>
    intro a b i h _ _
    injection h with h
    subst h
    exact ⟨[], by simp, by simp [refCharsFrom], by simp⟩
  | succ n ih =>
    intro a b i h hc1 hc2
    simp only [synthFrom] at h
    cases hstep : step a i with
    | none => rw [hstep] at h; exact Option.noConfusion h
    | some a1 =>
      rw [hstep] at h
      obtain ⟨pd, K, s0, s1, s2, s3, s4, s5, s6, s7, s8, s9⟩ :=
        step_spec a a1 i hstep hc1 hc2
      obtain ⟨s', t1, t2, t3⟩ := ih a1 b (i + 1) h
        (by rw [s3, s5]; exact hc1) (by rw [s3, s6]; exact hc2)
      refine ⟨List.replicate K '-' ++ pd.refChar ++ s', ?_, ?_, ?_⟩
      · rw [t1, s7]
        simp [List.append_assoc]
      · have hdrop : a.multiAlignment.drop i = pd :: a.multiAlignment.drop (i + 1) := by
          have hlt : i < a.multiAlignment.length := (List.get?_eq_some.mp s0).1
          rw [List.drop_eq_get_cons hlt]
          have : a.multiAlignment.get ⟨i, hlt⟩ = pd := by
            have := List.get?_eq_get hlt
            rw [s0] at this
            injection this with this
            exact this.symm
          rw [this]
        have hrc : refCharsFrom a.multiAlignment i (n + 1)
            = pd.refChar ++ refCharsFrom a.multiAlignment (i + 1) n := by
          unfold refCharsFrom
          rw [hdrop]
          simp
        have hrep : (List.replicate K '-').filter (fun c => c != '-') = [] := by
          induction K with
          | zero => rfl
          | succ K ihK => simpa [List.replicate_succ, List.filter_cons] using ihK
        rw [hrc]
        simp only [List.filter_append, hrep, t2, s2, List.nil_append]
      · intro c hc
        simp only [List.mem_append] at hc
        rcases hc with (hc | hc) | hc
        · left
          exact List.eq_of_mem_replicate hc
        · right
          exact ⟨pd, List.get?_mem s0, hc⟩
        · have := t3 c hc
          rw [s2] at this
          exact this

/-! ### Final helper lemmas -/

theorem dispOk_of_replicate (a : Alignment) (n : Nat)
    (h1 : a.refDisplayString = [])
    (h2 : a.displayStrings = List.replicate n emptyStringPair) : dispOk a := by
  intro j sp _ hsp
  rw [h2] at hsp
  have he := List.eq_of_mem_replicate (List.get?_mem hsp)
  subst he
  rw [h1]
  exact ⟨rfl, rfl⟩

theorem written_refChars (refSeq : List Char) (multi : List PairwiseData) (n : Nat)
    (hs : storeInvM refSeq multi) (hl : listLensAre n multi) (hn : 1 ≤ n) :
    ∀ i pd, multi.get? i = some pd →
      ∃ c, refSeq.get? i = some c ∧ pd.refChar = [c] := by
  intro i pd hpd
  rcases hs i pd hpd with ⟨_, h2⟩ | hok
  · obtain ⟨l1, _, _⟩ := hl pd (List.get?_mem hpd)
    rw [h2] at l1
    simp at l1
    omega
  · exact hok

theorem refCharsFrom_full : ∀ (multi : List PairwiseData) (refSeq : List Char),
    multi.length = refSeq.length →
    (∀ i pd, multi.get? i = some pd →
      ∃ c, refSeq.get? i = some c ∧ pd.refChar = [c]) →
    refCharsFrom multi 0 multi.length = refSeq := by
  intro multi
  induction multi with
  | nil =>
    intro refSeq hlen _
    cases refSeq with
    | nil => rfl
    | cons c cs => simp at hlen
  | cons pd rest ih =>
    intro refSeq hlen hall
    cases refSeq with
    | nil => simp at hlen
    | cons c cs =>
      obtain ⟨c0, hc0, hrc⟩ := hall 0 pd rfl
      have hc0e : c = c0 := by simpa using hc0
      have hall2 : ∀ i pd', rest.get? i = some pd' →
          ∃ c', cs.get? i = some c' ∧ pd'.refChar = [c'] := by
        intro i pd' hp
        exact hall (i + 1) pd' hp
      have htail := ih cs (by simpa using hlen) hall2
      unfold refCharsFrom at htail ⊢
      simp only [List.drop_zero, List.length_cons, List.take_succ_cons,
        List.map_cons, List.flatten_cons] at htail ⊢
      rw [hrc, htail, hc0e]
      rfl

theorem segmentCountOf_ceil (n w : Nat) (hw : 1 ≤ w) :
    segmentCountOf n w = (n + w - 1) / w := by
  unfold segmentCountOf
  have hmod := Nat.mod_lt n (show 0 < w by omega)
  have hdm : n / w * w + n % w = n := Nat.div_add_mod' n w
  by_cases hr : n % w = 0
  · rw [if_pos hr]
    have he : n + w - 1 = (w - 1) + (n / w) * w := by omega
    rw [he, Nat.add_mul_div_right _ _ (show 0 < w by omega),
      Nat.div_eq_of_lt (show w - 1 < w by omega)]
    omega
  · rw [if_neg hr]
    have hx : (n / w + 1) * w = n / w * w + w := by ring
    have he : n + w - 1 = (n % w - 1) + (n / w + 1) * w := by omega
    rw [he, Nat.add_mul_div_right _ _ (show 0 < w by omega),
      Nat.div_eq_of_lt (show n % w - 1 < w by omega)]
    omega

theorem slices_flatten (s : List Char) (w : Nat) :
    ∀ k, ((List.range k).map (fun i => pySlice s (i * w) ((i + 1) * w))).flatten
      = s.take (k * w) := by
  intro k
  induction k with
  | zero => simp
  | succ k ih =>
    rw [List.range_succ, List.map_append, List.flatten_append, ih]
    simp only [List.map_cons, List.map_nil, List.flatten_cons, List.flatten_nil,
      List.append_nil]
    unfold pySlice
    have h1 : (k + 1) * w - k * w = w := by
      have h2 : (k + 1) * w = k * w + w := by ring
      omega
    have h3 : (k + 1) * w = k * w + w := by ring
    rw [h1, h3, List.take_add]

theorem segmentsOf_flatten (s : List Char) (w sc : Nat) (hsc : 1 ≤ sc) :
    (segmentsOf s sc w).flatten = s := by
  obtain ⟨k, rfl⟩ : ∃ k, sc = k + 1 := ⟨sc - 1, by omega⟩
  unfold segmentsOf
  rw [List.range_succ, List.map_append]
  have hmap : (List.range k).map
      (fun i => if i = k + 1 - 1 then s.drop (i * w)
                else pySlice s (i * w) ((i + 1) * w))
      = (List.range k).map (fun i => pySlice s (i * w) ((i + 1) * w)) := by
    apply List.map_congr_left
    intro i hi
    have hik : i < k := List.mem_range.mp hi
    rw [if_neg (by omega)]
  rw [hmap]
  simp only [List.map_cons, List.map_nil, List.flatten_append, List.flatten_cons,
    List.flatten_nil, List.append_nil]
  rw [slices_flatten]
  rw [if_pos (by omega)]
  exact List.take_append_drop (k * w) s

theorem segmentCountOf_pred_le (n w : Nat) (hw : 1 ≤ w) :
    (segmentCountOf n w - 1) * w ≤ n := by
  have hdm : n / w * w + n % w = n := Nat.div_add_mod' n w
  unfold segmentCountOf
  by_cases hr : n % w = 0
  · rw [if_pos hr]
    have h1 : (n / w - 1) * w ≤ n / w * w :=
      Nat.mul_le_mul_right w (Nat.sub_le _ _)
    omega
  · rw [if_neg hr]
    have h1 : (n / w + 1 - 1) * w ≤ n / w * w :=
      Nat.mul_le_mul_right w (Nat.le_of_eq (Nat.add_sub_cancel _ _))
    omega

theorem segmentsOf_get? (s : List Char) (w sc i : Nat) (hi : i + 1 < sc) :
    (segmentsOf s sc w).get? i = some (pySlice s (i * w) ((i + 1) * w)) := by
  unfold segmentsOf
  rw [List.get?_map, List.get?_range (by omega)]
  simp only [Option.map_some']
  rw [if_neg (by omega)]

theorem pySlice_chunk_len (s : List Char) (w i : Nat) (hw : 1 ≤ w)
    (hle : (i + 1) * w ≤ s.length) :
    (pySlice s (i * w) ((i + 1) * w)).length = w := by
  unfold pySlice
  rw [List.length_take, List.length_drop]
  have h2 : (i + 1) * w = i * w + w := by ring
  omega

/-! ### Claim theorems -/

/-- Claim C6 (counterexample): a record with all four fields present whose
reference line is the empty string makes `AddAlignment` raise an uncaught
exception (`none`), not return the LengthMismatch code 3 that the spec
promises for lines that are not all non-empty and of equal padded length. -/
theorem claim6_counterexample :
    recEmptyW.matchName ≠ none ∧ recEmptyW.referenceLine = some [] ∧
    recEmptyW.correspondenceLine ≠ none ∧ recEmptyW.matchLine ≠ none ∧
    (AddAlignment aRW (some recEmptyW)).1 ≠ some 3 ∧
    (AddAlignment aRW (some recEmptyW)).1 = none :=
  ⟨by decide, by decide, by decide, by decide, by decide, by decide⟩

/-- Claim C6 (amended): for a record with all four fields whose three lines are
non-empty — so that terminator padding succeeds — `AddAlignment` returns the
LengthMismatch code 3 exactly when the padded lines are not all of equal
positive length; an empty line instead raises an uncaught exception (see the
counterexample). -/
theorem claim6_length_mismatch (a : Alignment) (r : PairwiseRecord)
    (mn rl0 cl0 ml0 rl cl ml : List Char)
    (hmn : r.matchName = some mn)
    (hrl0 : r.referenceLine = some rl0) (hrl : pad rl0 = some rl)
    (hcl0 : r.correspondenceLine = some cl0) (hcl : pad cl0 = some cl)
    (hml0 : r.matchLine = some ml0) (hml : pad ml0 = some ml) :
    (AddAlignment a (some r)).1 = some 3
      ↔ ¬(rl.length = cl.length ∧ rl.length = ml.length ∧ 0 < ml.length) := by
  unfold AddAlignment
  repeat' split
  all_goals simp_all
  all_goals rename_i hcnd hwk
  all_goals obtain ⟨c1, c2, c3⟩ := hcnd
  all_goals exact ⟨by omega, by intro he; rw [he] at c3; simp at c3⟩

/-- Witness for C6: the record `recUneqW` has non-empty lines of padded lengths
3, 2 and 3, and `AddAlignment` indeed answers code 3. -/
theorem claim6_witness :
    (AddAlignment aRW (some recUneqW)).1 = some 3 :=
  (claim6_length_mismatch aRW recUneqW "mu".toList "AB*".toList ":*".toList
    "AB*".toList "AB*".toList ":*".toList "AB*".toList rfl rfl (by decide) rfl
    (by decide) rfl (by decide)).mpr (by decide)

/-- Claim C7: atomicity of rejection — whenever `AddAlignment` returns an error
code (a `some e` with `e ≠ 0`: missing record, missing field or length
mismatch), the state it returns is exactly the input state: no position record
is mutated by the rejected call. -/
theorem claim7_rejection_atomic (a : Alignment) (rec : Option PairwiseRecord)
    (e : Nat) (a' : Alignment)
    (h : AddAlignment a rec = (some e, a')) (he : e ≠ 0) : a' = a :=
  AddAlignment_error_state a rec e a' h he

/-- Witness for C7: the record with a missing reference line is rejected with
code 2 and leaves the state untouched. -/
theorem claim7_witness :
    (AddAlignment aRW (some recMissW)).2 = aRW :=
  claim7_rejection_atomic aRW (some recMissW) 2 (AddAlignment aRW (some recMissW)).2
    (by decide) (by decide)

/-- Claim C8: longest-insertion drain — on the reference `"AB"` (stored as
`"AB*"`), after successfully ingesting match 1 (inserting `"X"` after residue
`'A'`) and match 2 (inserting `"YZ"` there), synthesis emits exactly two
insertion columns after `'A'`: the reference display is `"A--B*"`, match 1
shows `"X-"` and match 2 `"YZ"` across those columns, and both correspondence
displays carry blanks there. -/
theorem claim8_longest_insertion_drain :
    runAddsOk aRW [rec1W, rec2W] = some aOk2 ∧
    CreateAlignmentStrings aOk2 = some bOk2 ∧
    bOk2.refDisplayString = "A--B*".toList ∧
    bOk2.displayStrings.map (fun sp => sp.matchString)
      = ["AX-B*".toList, "AYZB*".toList] ∧
    bOk2.displayStrings.map (fun sp => sp.correspondence)
      = [":  :*".toList, ":  :*".toList] :=
  ⟨by decide, by decide, by decide, by decide, by decide⟩

/-- Claim C1: display-length equality — after entering a reference and any
sequence of successful `AddAlignment` calls, a completed
`CreateAlignmentStrings` leaves, for every ingested match `j`, a display pair
whose match display and correspondence display are exactly as long as the
reference display string. -/
theorem claim1_display_length_equality (ref : RefSeqRecord)
    (recs : List PairwiseRecord) (a0 a1 b : Alignment)
    (h0 : EnterReference initAlignment (some ref) = (some true, a0))
    (h1 : runAddsOk a0 recs = some a1)
    (h2 : CreateAlignmentStrings a1 = some b) :
    ∀ j, j < recs.length →
      ∃ sp, b.displayStrings.get? j = some sp ∧
        sp.matchString.length = b.refDisplayString.length ∧
        sp.correspondence.length = b.refDisplayString.length := by
  obtain ⟨e1, e2, e3, e4, e5, e6⟩ := EnterReference_facts ref a0 h0
  obtain ⟨f1, f2, f3, f4, f5, f6, f7⟩ := runAddsOk_facts recs a0 a1 h1
  unfold CreateAlignmentStrings at h2
  have hc1 : a1.alignmentCount ≤ a1.loopStrings.length := by
    rw [f3, e3, f4, e4]
    simp
  have hc2 : a1.alignmentCount ≤ a1.displayStrings.length := by
    rw [f3, e3, f5, e5]
    simp
  have hs : storeInvM a1.refSequence a1.multiAlignment := by
    apply f7
    rw [e1]
    exact replicate_storeInv _ _
  have hd : dispOk a1 := dispOk_of_replicate a1 recs.length
    (by rw [f6, e6]) (by rw [f5, e5]; simp)
  have hdb : dispOk b := synthFrom_dispOk _ a1 b 0 h2 hc1 hc2 hs hd
  obtain ⟨c1, c2, c3, c4, c5⟩ := synthFrom_const _ a1 b 0 h2 hc1 hc2
  intro j hj
  have hjc : j < b.alignmentCount := by
    rw [c3, f3, e3]
    omega
  have hjlen : j < b.displayStrings.length := by
    rw [c5, f5, e5]
    simp
    omega
  obtain ⟨sp, hsp⟩ : ∃ sp, b.displayStrings.get? j = some sp :=
    ⟨_, List.get?_eq_get hjlen⟩
  obtain ⟨d1, d2⟩ := hdb j sp hjc hsp
  exact ⟨sp, hsp, d1, d2⟩

/-- Witness for C1: the one-match scenario `rec1W` over reference `"AB"`. -/
theorem claim1_witness :
    ∃ sp, bOk1.displayStrings.get? 0 = some sp ∧
      sp.matchString.length = bOk1.refDisplayString.length ∧
      sp.correspondence.length = bOk1.refDisplayString.length :=
  claim1_display_length_equality refRecW [rec1W] aRW aOk1 bOk1
    (by decide) (by decide) (by decide) 0 (by decide)

/-- Claim C2 (counterexample): the record `recShortW` is accepted with code 0,
yet after this single successful call the parallel-list invariant at level 1
fails — its reference line `"A*"` covers only part of the stored reference, so
some positions gained no entry while one gained an extra insertion. -/
theorem claim2_counterexample :
    (AddAlignment aRW (some recShortW)).1 = some 0 ∧
    ¬ listLensAre 1 (AddAlignment aRW (some recShortW)).2.multiAlignment :=
  ⟨by decide, by unfold listLensAre; decide⟩

/-- Claim C2 (amended): parallel-list integrity holds for successful runs in
which every added record's padded reference line covers the stored reference,
i.e. carries exactly `len(refSequence)` non-gap characters: after `n` such
calls every position record holds exactly `n` matches, `n` correspondences and
`n` insertion strings. -/
theorem claim2_parallel_list_integrity (ref : RefSeqRecord)
    (recs : List PairwiseRecord) (a0 a1 : Alignment)
    (h0 : EnterReference initAlignment (some ref) = (some true, a0))
    (hcov : ∀ rec ∈ recs, coversRef a0.refSequence.length rec)
    (h1 : runAddsOk a0 recs = some a1) :
    listLensAre recs.length a1.multiAlignment := by
  obtain ⟨e1, e2, e3, e4, e5, e6⟩ := EnterReference_facts ref a0 h0
  have hlen : a0.multiAlignment.length = a0.refSequence.length := by
    rw [e1]
    simp
  have h := runAddsOk_lens recs a0 a1 0 h1 hlen hcov
    (by rw [e1]; exact replicate_lens _)
  simpa using h

/-- Witness for C2: the covering record `rec1W` keeps the invariant at level 1. -/
theorem claim2_witness : listLensAre 1 aOk1.multiAlignment := by
  have hcov : ∀ rec ∈ [rec1W], coversRef aRW.refSequence.length rec := by
    intro rec hrec
    have he : rec = rec1W := by simpa using hrec
    subst he
    exact ⟨"A-B*".toList, "A-B*".toList, rfl, by decide, by decide⟩
  exact claim2_parallel_list_integrity refRecW [rec1W] aRW aOk1
    (by decide) hcov (by decide)

/-- Claim C3 (counterexample): with zero ingested alignments the reference
display string stays empty, so deleting its gap characters does not reproduce
the stored reference sequence `"AB*"` — the round-trip fails for the empty
sequence of successful calls. -/
theorem claim3_counterexample :
    EnterReference initAlignment (some refRecW) = (some true, aRW) ∧
    CreateAlignmentStrings aRW = some bZeroW ∧
    bZeroW.refDisplayString.filter (fun c => c != '-') ≠ aRW.refSequence :=
  ⟨by decide, by decide, by decide⟩

/-- Claim C3 (amended): the round-trip holds once at least one successful call
is made and every added record's padded reference line covers the stored
reference (and the reference itself contains no gap character): deleting every
'-' from the synthesized reference display reproduces exactly the stored
terminator-padded reference sequence. -/
theorem claim3_round_trip (ref : RefSeqRecord) (recs : List PairwiseRecord)
    (a0 a1 b : Alignment)
    (h0 : EnterReference initAlignment (some ref) = (some true, a0))
    (hne : recs ≠ [])
    (hcov : ∀ rec ∈ recs, coversRef a0.refSequence.length rec)
    (hgap : '-' ∉ a0.refSequence)
    (h1 : runAddsOk a0 recs = some a1)
    (h2 : CreateAlignmentStrings a1 = some b) :
    b.refDisplayString.filter (fun c => c != '-') = a0.refSequence := by
  obtain ⟨e1, e2, e3, e4, e5, e6⟩ := EnterReference_facts ref a0 h0
  obtain ⟨f1, f2, f3, f4, f5, f6, f7⟩ := runAddsOk_facts recs a0 a1 h1
  unfold CreateAlignmentStrings at h2
  have hc1 : a1.alignmentCount ≤ a1.loopStrings.length := by
    rw [f3, e3, f4, e4]
    simp
  have hc2 : a1.alignmentCount ≤ a1.displayStrings.length := by
    rw [f3, e3, f5, e5]
    simp
  have hs : storeInvM a1.refSequence a1.multiAlignment := by
    apply f7
    rw [e1]
    exact replicate_storeInv _ _
  have hlens : listLensAre recs.length a1.multiAlignment := by
    have hlen : a0.multiAlignment.length = a0.refSequence.length := by
      rw [e1]
      simp
    have h := runAddsOk_lens recs a0 a1 0 h1 hlen hcov
      (by rw [e1]; exact replicate_lens _)
    simpa using h
  have hwr := written_refChars a1.refSequence a1.multiAlignment recs.length
    hs hlens (by have := List.length_pos.mpr hne; omega)
  have hml : a1.multiAlignment.length = a1.refSequence.length := by
    rw [f2, f1, e1]
    simp
  have hfull : refCharsFrom a1.multiAlignment 0 a1.multiAlignment.length
      = a1.refSequence := refCharsFrom_full a1.multiAlignment a1.refSequence hml hwr
  obtain ⟨s, t1, t2, _⟩ := synthFrom_refDisp a1.refSequence.length a1 b 0 h2 hc1 hc2
  rw [t1, f6, e6]
  rw [← hml] at t2
  rw [hfull] at t2
  simp only [List.nil_append]
  rw [t2, f1]
  apply List.filter_eq_self.mpr
  intro c hc
  have hcd : c ≠ '-' := by
    intro he
    subst he
    exact hgap hc
  simpa using hcd

/-- Witness for C3: the single covering record `rec1W` over reference `"AB"`
round-trips: filtering the gaps out of `"A-B*"` gives back `"AB*"`. -/
theorem claim3_witness :
    bOk1.refDisplayString.filter (fun c => c != '-') = aRW.refSequence := by
  have hcov : ∀ rec ∈ [rec1W], coversRef aRW.refSequence.length rec := by
    intro rec hrec
    have he : rec = rec1W := by simpa using hrec
    subst he
    exact ⟨"A-B*".toList, "A-B*".toList, rfl, by decide, by decide⟩
  exact claim3_round_trip refRecW [rec1W] aRW aOk1 bOk1 (by decide) (by decide)
    hcov (by decide) (by decide) (by decide)

/-- Claim C4 (counterexample): the pre-first-residue insertion `"X"` of
`recLeadW` is NOT discarded: the successful call stores it in the gapList of
the LAST position (index 2) of the store, and after synthesis it appears as
the first character of the match display, with the reference display opening
with a gap. -/
theorem claim4_counterexample :
    runAddsOk aRW [recLeadW] = some aLeadW ∧
    (aLeadW.multiAlignment.get? 2).map (fun pd => pd.gapList) = some [['X']] ∧
    CreateAlignmentStrings aLeadW = some bLeadW ∧
    bLeadW.refDisplayString = "-AB*".toList ∧
    (bLeadW.displayStrings.get? 0).map (fun sp => sp.matchString)
      = some "XAB*".toList :=
  ⟨by decide, by decide, by decide, by decide, by decide⟩

/-- Claim C4 (amended): an insertion resolved while the ungapped cursor still
equals 0 is not a discarded no-op: Python's index `-1` wraps around, so the
walk appends the pre-first-residue insertion to the gapList of the last
position of the store. -/
theorem claim4_pre_first_insertion_wraps (refSeq : List Char)
    (gapsBlock : List Col) (col : Col) (rest : List Col)
    (multi multi' : List PairwiseData)
    (hgaps : ∀ x ∈ gapsBlock, x.r = '-') (hcol : col.r ≠ '-')
    (hw : walk refSeq (gapsBlock ++ col :: rest) 0 [] multi = (some (), multi'))
    (pd pd' : PairwiseData)
    (hpd : multi.get? (multi.length - 1) = some pd)
    (hpd' : multi'.get? (multi.length - 1) = some pd') :
    pd'.gapList = pd.gapList ++ [gapsBlock.map (fun x => x.m)] :=
  walk_preGap refSeq gapsBlock col rest multi multi' hgaps hcol hw pd pd' hpd hpd'

/-- Witness for C4: the walk of `recLeadW`'s lines over the fresh store of
`"AB*"` appends `"X"` to the gapList of position 2, the last position. -/
theorem claim4_witness :
    leadPd.gapList
      = emptyPairwiseData.gapList ++ [List.map (fun x => x.m) [Col.mk '-' ' ' 'X']] :=
  claim4_pre_first_insertion_wraps "AB*".toList [Col.mk '-' ' ' 'X']
    (Col.mk 'A' ':' 'A') [Col.mk 'B' ':' 'B', Col.mk '*' '*' '*']
    (List.replicate 3 emptyPairwiseData) leadWalk.2 (by decide) (by decide)
    (by decide) emptyPairwiseData leadPd (by decide) (by decide)

/-- Claim C5 (counterexample): a reference-line column holding '.' is NOT
recognized as a gap marker: `recDotW`'s '.' column is consumed as a residue
column — its match character 'X' lands in position 0's matchList and every
gapList entry stays empty — instead of being accumulated into the insertion
buffer. -/
theorem claim5_counterexample :
    (AddAlignment aRW (some recDotW)).1 = some 0 ∧
    (AddAlignment aRW (some recDotW)).2.multiAlignment.map (fun pd => pd.matchList)
      = [['X'], ['B'], ['*']] ∧
    (AddAlignment aRW (some recDotW)).2.multiAlignment.map (fun pd => pd.gapList)
      = [[[]], [[]], [[]]] :=
  ⟨by decide, by decide, by decide⟩

/-- Claim C5 (amended): only '-' is a gap marker — position p's match and
correspondence lists grow during a successful walk exactly by the count
dictated by the columns whose reference character differs from '-' (so a '.'
column is a residue column, not a gap column). -/
theorem claim5_gap_marker_only_dash (refSeq : List Char) (cols : List Col)
    (multi multi' : List PairwiseData)
    (hw : walk refSeq cols 0 [] multi = (some (), multi'))
    (p : Nat) (pd pd' : PairwiseData)
    (hpd : multi.get? p = some pd) (hpd' : multi'.get? p = some pd') :
    pd'.matchList.length
      = pd.matchList.length + mInc 0 (cols.countP (fun col => col.r != '-')) p ∧
    pd'.correspondenceList.length
      = pd.correspondenceList.length
        + mInc 0 (cols.countP (fun col => col.r != '-')) p := by
  obtain ⟨d1, d2, _⟩ := walk_delta refSeq cols 0 [] multi multi' hw p pd pd' hpd hpd'
  exact ⟨d1, d2⟩

/-- Witness for C5: the walk of `recDotW`'s lines over the fresh store of
`"AB*"`: all three columns (including the '.' one) count as residue columns,
so position 0 gains exactly one match entry. -/
theorem claim5_witness :
    dotPd.matchList.length = emptyPairwiseData.matchList.length
      + mInc 0 ((zip3 ".B*".toList "::*".toList "XB*".toList).countP
          (fun col => col.r != '-')) 0 ∧
    dotPd.correspondenceList.length = emptyPairwiseData.correspondenceList.length
      + mInc 0 ((zip3 ".B*".toList "::*".toList "XB*".toList).countP
          (fun col => col.r != '-')) 0 :=
  claim5_gap_marker_only_dash "AB*".toList
    (zip3 ".B*".toList "::*".toList "XB*".toList)
    (List.replicate 3 emptyPairwiseData) dotWalk.2 (by decide) 0
    emptyPairwiseData dotPd (by decide) (by decide)

/-- Claim C9: formatter segmentation — for every width ≥ 1 the segment count is
the ceiling of the display length over the width, the display splits into that
many chunks, every non-final chunk is exactly `width` long, and concatenating
the chunks in order reproduces the unsplit string exactly. -/
theorem claim9_formatter_segmentation (s : List Char) (w : Nat) (hw : 1 ≤ w) :
    segmentCountOf s.length w = (s.length + w - 1) / w ∧
    (segmentsOf s (segmentCountOf s.length w) w).length
      = segmentCountOf s.length w ∧
    (segmentsOf s (segmentCountOf s.length w) w).flatten = s ∧
    (∀ i, i + 1 < segmentCountOf s.length w →
      ((segmentsOf s (segmentCountOf s.length w) w).get? i).map List.length
        = some w) := by
  refine ⟨segmentCountOf_ceil s.length w hw, by simp [segmentsOf], ?_, ?_⟩
  · by_cases hz : s.length = 0
    · have hs0 : s = [] := List.length_eq_zero.mp hz
      subst hs0
      simp [segmentsOf, segmentCountOf]
    · apply segmentsOf_flatten
      rw [segmentCountOf_ceil s.length w hw,
        Nat.le_div_iff_mul_le (show 0 < w by omega)]
      omega
  · intro i hi
    rw [segmentsOf_get? s w _ i hi, Option.map_some']
    have hle : (i + 1) * w ≤ s.length := by
      have h2 : (i + 1) * w ≤ (segmentCountOf s.length w - 1) * w :=
        Nat.mul_le_mul_right w (by omega)
      have h3 := segmentCountOf_pred_le s.length w hw
      omega
    rw [pySlice_chunk_len s w i hw hle]

/-- Witness for C9: width 2 over the five-character string `"A-B*X"`: three
segments `"A-"`, `"B*"`, `"X"`. -/
theorem claim9_witness :
    segmentCountOf ("A-B*X".toList).length 2
        = (("A-B*X".toList).length + 2 - 1) / 2 ∧
    (segmentsOf "A-B*X".toList (segmentCountOf ("A-B*X".toList).length 2) 2).length
      = segmentCountOf ("A-B*X".toList).length 2 ∧
    (segmentsOf "A-B*X".toList
        (segmentCountOf ("A-B*X".toList).length 2) 2).flatten = "A-B*X".toList ∧
    (∀ i, i + 1 < segmentCountOf ("A-B*X".toList).length 2 →
      ((segmentsOf "A-B*X".toList
          (segmentCountOf ("A-B*X".toList).length 2) 2).get? i).map List.length
        = some 2) :=
  claim9_formatter_segmentation "A-B*X".toList 2 (by decide)

/-- Claim C10: reference characters come only from the stored reference — any
sequence of `AddAlignment` calls, successful or not, keeps every position's
refChar either never written or equal to that position's residue of the stored
padded reference sequence; consequently, after successful ingestion and
synthesis every non-gap character of the reference display string is a
character of the stored reference sequence, never one taken from an ingested
reference line. -/
theorem claim10_refchar_provenance (ref : RefSeqRecord) (a0 : Alignment)
    (h0 : EnterReference initAlignment (some ref) = (some true, a0)) :
    (∀ recsAny : List (Option PairwiseRecord),
      storeInvM (runAddsAny a0 recsAny).refSequence
        (runAddsAny a0 recsAny).multiAlignment) ∧
    (∀ recs a1 b, runAddsOk a0 recs = some a1 →
      CreateAlignmentStrings a1 = some b →
      ∀ c ∈ b.refDisplayString, c = '-' ∨ c ∈ a0.refSequence) := by
  obtain ⟨e1, e2, e3, e4, e5, e6⟩ := EnterReference_facts ref a0 h0
  have hs0 : storeInvM a0.refSequence a0.multiAlignment := by
    rw [e1]
    exact replicate_storeInv _ _
  constructor
  · intro recsAny
    obtain ⟨_, _, g3⟩ := runAddsAny_facts recsAny a0
    exact g3 hs0
  · intro recs a1 b h1 h2
    obtain ⟨f1, f2, f3, f4, f5, f6, f7⟩ := runAddsOk_facts recs a0 a1 h1
    unfold CreateAlignmentStrings at h2
    have hc1 : a1.alignmentCount ≤ a1.loopStrings.length := by
      rw [f3, e3, f4, e4]
      simp
    have hc2 : a1.alignmentCount ≤ a1.displayStrings.length := by
      rw [f3, e3, f5, e5]
      simp
    have hs : storeInvM a1.refSequence a1.multiAlignment := f7 hs0
    obtain ⟨s, t1, _, t3⟩ := synthFrom_refDisp a1.refSequence.length a1 b 0 h2 hc1 hc2
    intro c hc
    rw [t1, f6, e6, List.nil_append] at hc
    rcases t3 c hc with hdash | ⟨pd, hpd, hcpd⟩
    · exact Or.inl hdash
    · right
      obtain ⟨i, hi⟩ := List.mem_iff_get?.mp hpd
      rcases hs i pd hi with ⟨hrc, _⟩ | ⟨c0, hc0, hrc⟩
      · rw [hrc] at hcpd
        exact absurd hcpd (by simp)
      · rw [hrc] at hcpd
        have hce : c = c0 := by simpa using hcpd
        subst hce
        rw [f1] at hc0
        exact List.get?_mem hc0

/-- Witness for C10: over the entered reference `"AB"`, a run containing the
rejected-in-spirit but accepted record `recShortW` (whose non-gap reference
characters disagree with the stored reference) keeps the store invariant, and
the synthesized display of the `rec1W` run only shows gaps or characters of
`"AB*"`. -/
theorem claim10_witness :
    storeInvM (runAddsAny aRW [some recShortW]).refSequence
      (runAddsAny aRW [some recShortW]).multiAlignment ∧
    (∀ c ∈ bOk1.refDisplayString, c = '-' ∨ c ∈ aRW.refSequence) := by
  have h := claim10_refchar_provenance refRecW aRW (by decide)
  exact ⟨h.1 [some recShortW], h.2 [rec1W] aOk1 bOk1 (by decide) (by decide)⟩

end CombAlign
